import Mathlib

/-!
# gifspin server core: token and path codec, limits validator, error classifier,
  task execution and the bounded dispatcher

A shallow embedding of `server/main.go`.  Go strings are modelled as lists of
characters (`Str`); every byte the embedded functions inspect (`/`, `.`, the
decimal digits, the sign) is ASCII.  The standard-library functions the program
calls (`path.Base`, `path.Ext`, `filepath.Clean`, `filepath.Join`,
`strconv.FormatInt`, `base32.Encoding.EncodeToString`, `http.StatusText`,
`errors.Is`, `errors.As`, `exec.Cmd.Start`) are embedded from their Go
definitions, under their Go names.  A pointer that may be nil (`*APIError`,
`*CompositeTask`, `*CompositeOptions`) is an `Option`, and the dereference of a
nil one is the panic the deferred function of `CompositeTask.Execute` recovers.
-/

namespace Gifspin

/-- A Go string, as the list of its characters. -/
abbrev Str := List Char

/-! ## `path` and `path/filepath` (Unix) -/

/-- Go `path.Base`: the last element of a path.  Trailing slashes are removed
before extracting the last element; the empty path gives `.`, a path made only
of slashes gives `/`. -/
def path.Base (p : Str) : Str :=
  if p = [] then ['.']
  else
    let stripped := (p.reverse.dropWhile (fun c => c == '/')).reverse
    let last := (stripped.reverse.takeWhile (fun c => c != '/')).reverse
    if last = [] then ['/'] else last

/-- The loop of Go `path.Ext`, scanning from the end of the path: `rest` is the
part still to scan, reversed; `acc` is the suffix already scanned. -/
def path.extLoop : Str → Str → Str
  | [], _ => []
  | c :: rest, acc =>
    if c = '/' then []
    else if c = '.' then c :: acc
    else path.extLoop rest (c :: acc)

/-- Go `path.Ext`: the suffix beginning at the final dot in the final
slash-separated element of the path; empty if there is no dot. -/
def path.Ext (p : Str) : Str := path.extLoop p.reverse []

/-- The slash-separated elements of a path (empty elements included). -/
def filepath.elements : Str → List Str
  | [] => [[]]
  | c :: cs =>
    if c = '/' then [] :: filepath.elements cs
    else
      match filepath.elements cs with
      | [] => [[c]]
      | e :: es => (c :: e) :: es

/-- One iteration of the loop of Go `filepath.Clean` over a path element.
`out` is the list of elements written so far, last written first.  An empty
element and `.` are skipped; `..` removes the last written element when there
is one that is not itself a leading `..`, is dropped at the root of a rooted
path, and is appended otherwise; any other element is appended. -/
def filepath.cleanStep (rooted : Bool) (out : List Str) (e : Str) : List Str :=
  if e = [] then out
  else if e = ['.'] then out
  else if e = ['.', '.'] then
    match out with
    | [] => if rooted then [] else [e]
    | top :: below => if top = ['.', '.'] then e :: out else below
  else e :: out

/-- The string Go `filepath.Clean` returns for the written elements: the
elements joined by single slashes, after the leading slash of a rooted path;
the empty result becomes `.`. -/
def filepath.render (rooted : Bool) (out : List Str) : Str :=
  let body := ['/'].intercalate out.reverse
  if rooted then '/' :: body
  else if body = [] then ['.'] else body

/-- Go `filepath.Clean` on Unix: the shortest path name equivalent to `p` by
purely lexical processing. -/
def filepath.Clean (p : Str) : Str :=
  if p = [] then ['.']
  else
    let rooted := p.head? == some '/'
    filepath.render rooted ((filepath.elements p).foldl (filepath.cleanStep rooted) [])

/-- Go `filepath.Join` on Unix for two elements: empty elements are ignored,
the rest are joined with a slash and the result is cleaned; all elements empty
gives the empty string. -/
def filepath.Join (a b : Str) : Str :=
  if a ≠ [] then filepath.Clean (a ++ '/' :: b)
  else if b ≠ [] then filepath.Clean b
  else []

/-- Go `filepath.Dir` on Unix: all but the last element of the path, cleaned. -/
def filepath.Dir (p : Str) : Str :=
  filepath.Clean (p.reverse.dropWhile (fun c => c != '/')).reverse

/-! ## Token and path codec (`main.go`, lines 242-272) -/

/-- The alphabet of `nanoidEncode`. -/
def nanoidAlphabet : Str := "abcdefghijklmnopqrstuvwxyz234567".toList

/-- The eight 5-bit groups of a 40-bit quantum, most significant first. -/
def base32.groups (v : Nat) : List Nat :=
  [v / 2 ^ 35 % 32, v / 2 ^ 30 % 32, v / 2 ^ 25 % 32, v / 2 ^ 20 % 32,
   v / 2 ^ 15 % 32, v / 2 ^ 10 % 32, v / 2 ^ 5 % 32, v % 32]

/-- The 40-bit quantum made of up to five bytes, missing bytes read as zero. -/
def base32.quantum (bs : List Nat) : Nat :=
  bs.getD 0 0 * 2 ^ 32 + bs.getD 1 0 * 2 ^ 24 + bs.getD 2 0 * 2 ^ 16 + bs.getD 3 0 * 2 ^ 8
    + bs.getD 4 0

/-- The number of significant output characters of a final quantum of `n` bytes. -/
def base32.significant (n : Nat) : Nat :=
  match n with
  | 1 => 2
  | 2 => 4
  | 3 => 5
  | 4 => 7
  | _ => 8

/-- Go `(*base32.Encoding).EncodeToString` with the standard padding: each
group of five bytes becomes eight characters of the alphabet; a final group of
one to four bytes is padded with `=`. -/
def base32.EncodeToString (alphabet : Str) : List Nat → Str
  | [] => []
  | b0 :: b1 :: b2 :: b3 :: b4 :: rest =>
    (base32.groups (base32.quantum [b0, b1, b2, b3, b4])).map (fun g => alphabet.getD g '=')
      ++ base32.EncodeToString alphabet rest
  | bs =>
    (((base32.groups (base32.quantum bs)).take (base32.significant bs.length)).map
        (fun g => alphabet.getD g '='))
      ++ List.replicate (8 - base32.significant bs.length) '='

/-- The function `nanoid`, given the ten bytes `io.ReadFull` read from the random
source. -/
def nanoid (b : List Nat) : Str := base32.EncodeToString nanoidAlphabet b

/-- The function `generateTokenInput`, given the identifier `nanoid()` returned. -/
def generateTokenInput (extension id : Str) : Str :=
  "/temp/".toList ++ id ++ ".".toList ++ extension

/-- The function `generateTokenOutput`, given the identifier `nanoid()` returned. -/
def generateTokenOutput (token id : Str) : Str :=
  let tokenBase := path.Base token
  let tokenExt := path.Ext tokenBase
  "/temp/".toList ++ tokenBase.take (tokenBase.length - tokenExt.length) ++ "-".toList ++ id
    ++ ".gif".toList

/-- The function `getPathFromToken`. -/
def getPathFromToken (pathTemp token : Str) : Str :=
  filepath.Join pathTemp (path.Base token)

/-! ## `strconv`, `strings`, `unicode` -/

/-- The ASCII digit of a value below ten. -/
def strconv.digit (d : Nat) : Char := Char.ofNat (48 + d)

/-- The loop of Go `strconv.formatBits` in base 10: the decimal digits of `u`,
most significant first.  `fuel` bounds the number of digits. -/
def strconv.formatBits : Nat → Nat → Str
  | 0, _ => []
  | fuel + 1, u =>
    if u < 10 then [strconv.digit u]
    else strconv.formatBits fuel (u / 10) ++ [strconv.digit (u % 10)]

/-- Go `strconv.FormatInt(i, 10)`: a minus sign for a negative value, then the
decimal digits of the magnitude. -/
def strconv.FormatInt (i : Int) : Str :=
  if i < 0 then '-' :: strconv.formatBits (i.natAbs + 1) i.natAbs
  else strconv.formatBits (i.natAbs + 1) i.natAbs

/-- The loop of Go `strconv.ParseUint(s, 10, 64)` over the digits: a byte that is
not a decimal digit is a syntax error, a value above `2^64 - 1` a range error
(both `none`). -/
def strconv.parseLoop : Str → Nat → Option Nat
  | [], n => some n
  | c :: cs, n =>
    if '0' ≤ c ∧ c ≤ '9' then
      let n1 := n * 10 + (c.toNat - 48)
      if n1 < 2 ^ 64 then strconv.parseLoop cs n1 else none
    else none

/-- Go `strconv.ParseUint(s, 10, 64)`, `none` when it returns an error. -/
def strconv.ParseUint (s : Str) : Option Nat :=
  if s = [] then none else strconv.parseLoop s 0

/-- Go `strconv.ParseInt(s, 10, 64)`, `none` when it returns an error: an
optional sign, then an unsigned number whose signed value fits 64 bits. -/
def strconv.ParseInt (s : Str) : Option Int :=
  match s with
  | [] => none
  | c :: cs =>
    let neg := c == '-'
    let digits := if c = '+' ∨ c = '-' then cs else c :: cs
    match strconv.ParseUint digits with
    | none => none
    | some un =>
      if !neg ∧ un ≥ 2 ^ 63 then none
      else if neg ∧ un > 2 ^ 63 then none
      else some (if neg then -(un : Int) else (un : Int))

/-- Whether `s` begins with `p`. -/
def strings.startsWith : Str → Str → Bool
  | _, [] => true
  | [], _ :: _ => false
  | c :: s, d :: p => c == d && strings.startsWith s p

/-- Go `strings.Contains`: whether `sub` occurs within `s`. -/
def strings.Contains : Str → Str → Bool
  | [], sub => sub.isEmpty
  | c :: s, sub => strings.startsWith (c :: s) sub || strings.Contains s sub

/-- Go `unicode.IsSpace`: the code points with the White_Space property. -/
def unicode.IsSpace (c : Char) : Bool :=
  let r := c.toNat
  (9 ≤ r && r ≤ 13) || r == 0x20 || r == 0x85 || r == 0xA0 || r == 0x1680
    || (0x2000 ≤ r && r ≤ 0x200A) || r == 0x2028 || r == 0x2029 || r == 0x202F
    || r == 0x205F || r == 0x3000

/-- Go `strings.TrimSpace`: all leading and trailing white space removed. -/
def strings.TrimSpace (s : Str) : Str :=
  ((s.dropWhile unicode.IsSpace).reverse.dropWhile unicode.IsSpace).reverse

/-! ## Limits validator (`main.go`, lines 98-139) -/

/-- The struct `CompositeOptions`; the `int64` fields are integers. -/
structure CompositeOptions where
  Width : Int
  Height : Int
  FrameCount : Int
  FrameDelay : Int
  FlagCrop : Bool
  FlagReverse : Bool
  FlagFlatten : Bool
  Background : Int
  deriving DecidableEq, Repr

/-- The struct `CompositeLimits`. -/
structure CompositeLimits where
  SizeMax : Int
  WidthMax : Int
  HeightMax : Int
  FrameCountMin : Int
  FrameCountMax : Int
  FrameDelayMin : Int
  FrameDelayMax : Int
  deriving DecidableEq, Repr

/-- The message of `fmt.Errorf("<field> %d is larger than maximum %d", v, max)`. -/
def msgLarger (field : String) (v max : Int) : Str :=
  field.toList ++ " ".toList ++ strconv.FormatInt v ++ " is larger than maximum ".toList
    ++ strconv.FormatInt max

/-- The message of `fmt.Errorf("<field> %d is smaller than minimum %d", v, min)`. -/
def msgSmaller (field : String) (v min : Int) : Str :=
  field.toList ++ " ".toList ++ strconv.FormatInt v ++ " is smaller than minimum ".toList
    ++ strconv.FormatInt min

/-- The method `(*CompositeOptions).Validate`: `none` for a nil error, otherwise
the message of the error returned. -/
def CompositeOptions.Validate (opts : CompositeOptions) (lims : CompositeLimits) : Option Str :=
  if opts.Width > lims.WidthMax then
    some (msgLarger "width" opts.Width lims.WidthMax)
  else if opts.Height > lims.HeightMax then
    some (msgLarger "height" opts.Height lims.HeightMax)
  else if opts.FrameCount < lims.FrameCountMin then
    some (msgSmaller "frameCount" opts.FrameCount lims.FrameCountMin)
  else if opts.FrameCount > lims.FrameCountMax then
    some (msgLarger "frameCount" opts.FrameCount lims.FrameCountMax)
  else if opts.FrameDelay < lims.FrameDelayMin then
    some (msgSmaller "frameDelay" opts.FrameDelay lims.FrameDelayMin)
  else if opts.FrameDelay > lims.FrameDelayMax then
    some (msgLarger "frameDelay" opts.FrameDelay lims.FrameDelayMax)
  else none

/-! ## Error classifier (`main.go`, lines 31-96) -/

/-- The error values of the program.  An error is a tree: `wrapError` is what
`fmt.Errorf` builds for one `%w` verb (its message and the wrapped error, the
result of `Unwrap() error`), `wrapErrors` what it builds for two `%w` verbs (its
message and the two wrapped errors, the result of `Unwrap() []error`), the three
`apiError` constructors are the values of type `*APIError` (with a cause,
without one, and the nil pointer), and the other constructors are leaves:
`context.Canceled`, `context.DeadlineExceeded`, a `*json.SyntaxError`, and
`errorString` for any other error without an `Unwrap` method, given by its
message (`errors.New`, a `runtime.Error`, an exit error). -/
inductive GoError where
  | errorString (s : Str)
  | wrapError (msg : Str) (err : GoError)
  | wrapErrors (msg : Str) (first second : GoError)
  | canceled
  | deadlineExceeded
  | syntaxError (msg : Str)
  | apiError (err : GoError) (status : Int)
  | apiErrorNoCause (status : Int)
  | apiErrorNil
  deriving DecidableEq, Repr

/-- The struct `APIError`; a nil `err` is `none`. -/
structure APIError where
  err : Option GoError
  status : Int
  deriving DecidableEq, Repr

/-- The texts of Go `http.StatusText`. -/
def http.statusTexts : List (Int × String) :=
  [(100, "Continue"), (101, "Switching Protocols"), (102, "Processing"), (103, "Early Hints"),
   (200, "OK"), (201, "Created"), (202, "Accepted"), (203, "Non-Authoritative Information"),
   (204, "No Content"), (205, "Reset Content"), (206, "Partial Content"), (207, "Multi-Status"),
   (208, "Already Reported"), (226, "IM Used"),
   (300, "Multiple Choices"), (301, "Moved Permanently"), (302, "Found"), (303, "See Other"),
   (304, "Not Modified"), (305, "Use Proxy"), (307, "Temporary Redirect"),
   (308, "Permanent Redirect"),
   (400, "Bad Request"), (401, "Unauthorized"), (402, "Payment Required"), (403, "Forbidden"),
   (404, "Not Found"), (405, "Method Not Allowed"), (406, "Not Acceptable"),
   (407, "Proxy Authentication Required"), (408, "Request Timeout"), (409, "Conflict"),
   (410, "Gone"), (411, "Length Required"), (412, "Precondition Failed"),
   (413, "Request Entity Too Large"), (414, "Request URI Too Long"),
   (415, "Unsupported Media Type"), (416, "Requested Range Not Satisfiable"),
   (417, "Expectation Failed"), (418, "I\x27m a teapot"), (421, "Misdirected Request"),
   (422, "Unprocessable Entity"), (423, "Locked"), (424, "Failed Dependency"),
   (425, "Too Early"), (426, "Upgrade Required"), (428, "Precondition Required"),
   (429, "Too Many Requests"), (431, "Request Header Fields Too Large"),
   (451, "Unavailable For Legal Reasons"),
   (500, "Internal Server Error"), (501, "Not Implemented"), (502, "Bad Gateway"),
   (503, "Service Unavailable"), (504, "Gateway Timeout"),
   (505, "HTTP Version Not Supported"), (506, "Variant Also Negotiates"),
   (507, "Insufficient Storage"), (508, "Loop Detected"), (510, "Not Extended"),
   (511, "Network Authentication Required")]

/-- Go `http.StatusText`: the text of a status code, empty if the code is unknown. -/
def http.StatusText (code : Int) : Str :=
  ((http.statusTexts.lookup code).getD "").toList

/-- The method `(*APIError).Unwrap`, on a possibly nil receiver. -/
def APIError.Unwrap (e : Option APIError) : Option GoError :=
  match e with
  | none => none
  | some a => a.err

/-- The method `(*APIError).StatusCode`, on a possibly nil receiver. -/
def APIError.StatusCode (e : Option APIError) : Int :=
  match e with
  | none => 500
  | some a => if a.status < 100 ∨ a.status > 599 then 500 else a.status

/-- The method `Error` of every error value. -/
def GoError.Error : GoError → Str
  | .errorString s => s
  | .wrapError msg _ => msg
  | .wrapErrors msg _ _ => msg
  | .canceled => "context canceled".toList
  | .deadlineExceeded => "context deadline exceeded".toList
  | .syntaxError msg => msg
  | .apiError err _ =>
    let msg := err.Error
    if msg = [] then "undefined".toList else msg
  | .apiErrorNoCause status =>
    let msg := http.StatusText (if status < 100 ∨ status > 599 then 500 else status)
    if msg = [] then "undefined".toList else msg
  | .apiErrorNil =>
    let msg := http.StatusText 500
    if msg = [] then "undefined".toList else msg

/-- The method `(*APIError).Error`, on a possibly nil receiver. -/
def APIError.Error (e : Option APIError) : Str :=
  let msg :=
    match APIError.Unwrap e with
    | some err => err.Error
    | none => http.StatusText (APIError.StatusCode e)
  if msg = [] then "undefined".toList else msg

/-- The function `newAPIError`. -/
def newAPIError (err : Option GoError) (status : Int) : APIError := ⟨err, status⟩

/-- Go `errors.As` with a target of type `*APIError`, preceded by the type
assertion `err.(*APIError)`: the first `*APIError` of the tree in the pre-order,
depth-first traversal of `errors.As` (`some none` is the nil pointer), `none`
if there is none. -/
def errors.AsAPIError : GoError → Option (Option APIError)
  | .apiError err status => some (some ⟨some err, status⟩)
  | .apiErrorNoCause status => some (some ⟨none, status⟩)
  | .apiErrorNil => some none
  | .wrapError _ err => errors.AsAPIError err
  | .wrapErrors _ first second =>
    match errors.AsAPIError first with
    | some impl => some impl
    | none => errors.AsAPIError second
  | _ => none

/-- Go `errors.As` with a target of type `*json.SyntaxError`, preceded by the
type assertion `err.(*json.SyntaxError)`: whether the tree holds one. -/
def errors.AsSyntaxError : GoError → Bool
  | .syntaxError _ => true
  | .wrapError _ err => errors.AsSyntaxError err
  | .wrapErrors _ first second => errors.AsSyntaxError first || errors.AsSyntaxError second
  | .apiError err _ => errors.AsSyntaxError err
  | _ => false

/-- Go `errors.Is`: whether an error of the tree equals `target`. -/
def errors.Is (e target : GoError) : Bool :=
  e == target ||
    match e with
    | .wrapError _ err => errors.Is err target
    | .wrapErrors _ first second => errors.Is first target || errors.Is second target
    | .apiError err _ => errors.Is err target
    | _ => false

/-- The function `newAPIErrorFrom`; a nil `err` is `none`. -/
def newAPIErrorFrom (err : Option GoError) : APIError :=
  match err with
  | none => newAPIError none 500
  | some e =>
    match errors.AsAPIError e with
    | some impl => newAPIError (APIError.Unwrap impl) (APIError.StatusCode impl)
    | none =>
      if errors.Is e .canceled then newAPIError (some e) 500
      else if errors.Is e .deadlineExceeded then newAPIError (some e) 504
      else if errors.AsSyntaxError e then newAPIError (some e) 400
      else
        let msg := e.Error
        if strings.Contains msg "request body too large".toList then newAPIError (some e) 413
        else newAPIError (some e) 500

/-! ## Task execution (`main.go`, lines 141-204) -/

/-- A `context.Context` over logical time: it is done from instant `doneAt` on
(never, if `none`), and then reports `context.DeadlineExceeded` when it expired
and `context.Canceled` when it was cancelled. -/
structure Context where
  doneAt : Option Nat
  expired : Bool
  deriving DecidableEq, Repr

/-- The method `ctx.Err()` at instant `now`: nil (`none`) until the context is
done.  The case `<- ctx.Done()` of a `select` is ready exactly when it is not
nil. -/
def Context.Err (ctx : Context) (now : Nat) : Option GoError :=
  match ctx.doneAt with
  | none => none
  | some t =>
    if t ≤ now then some (if ctx.expired then .deadlineExceeded else .canceled) else none

/-- The struct `CompositeTask`.  The field `Options` is a pointer: `none` is
the nil pointer. -/
structure CompositeTask where
  Options : Option CompositeOptions
  PathInput : Str
  PathOutput : Str
  PathBinary : Str
  deriving DecidableEq, Repr

/-- The closure `argInt` of `CompositeTask.Execute`. -/
def argInt (val : Int) : Str := strconv.FormatInt val

/-- The closure `argFlag` of `CompositeTask.Execute`. -/
def argFlag (val : Bool) : Str := if val then "1".toList else "0".toList

/-- A value passed to `panic`: a value that implements `error`, or another
value, given by the text the verb `%v` prints for it. -/
inductive PanicValue where
  | error (rerr : GoError)
  | other (text : Str)
  deriving DecidableEq, Repr

/-- The panic of the Go run time for the dereference of a nil pointer, a
`runtime.Error`. -/
def runtime.nilDereference : PanicValue :=
  .error (.errorString "runtime error: invalid memory address or nil pointer dereference".toList)

/-- The deferred function of `CompositeTask.Execute` (lines 149-157): the error
it assigns to the result `err` when `recover()` returns the value `r`. -/
def CompositeTask.recovered (r : PanicValue) : GoError :=
  match r with
  | .error rerr => .wrapError ("task panic: ".toList ++ rerr.Error) rerr
  | .other text => .errorString ("task panic: ".toList ++ text)

/-- The slice `args` that `CompositeTask.Execute` builds (lines 165-177) and
hands to `exec.CommandContext` after the path of the executable.  The receiver
`task` is a pointer (`none` is nil); `none` is returned when `task.Options`
(line 165) or `opts.Width` (line 167) dereferences a nil pointer, which
panics. -/
def CompositeTask.args (task : Option CompositeTask) : Option (List Str) :=
  match task with
  | none => none
  | some t =>
    match t.Options with
    | none => none
    | some opts =>
      some [argInt opts.Width,
        argInt opts.Height,
        argInt opts.FrameCount,
        argInt opts.FrameDelay,
        argFlag opts.FlagCrop,
        argFlag opts.FlagReverse,
        argFlag opts.FlagFlatten,
        argInt opts.Background,
        t.PathInput,
        t.PathOutput]

/-- What the operating system does with one command: `lookErr` is the error
`exec.CommandContext` recorded while resolving the executable, `startErr` the
error of `os.StartProcess`, `waitErr` the error of `command.Wait()` (`none`:
exit status 0; otherwise a non-zero exit or a signal), `output` what the process
wrote to its standard output and error, and `startTicks` and `waitTicks` the
time the two calls take. -/
structure Process where
  lookErr : Option GoError
  startErr : Option GoError
  startTicks : Nat
  waitErr : Option GoError
  waitTicks : Nat
  output : Str
  deriving DecidableEq, Repr

/-- Go `(*exec.Cmd).Start` for a command made by `exec.CommandContext`: the
recorded lookup error, else the error of a context that is already done, else
the error of `os.StartProcess`.  A process exists only when the result is
`none`. -/
def exec.Start (ctx : Context) (now : Nat) (proc : Process) : Option GoError :=
  match proc.lookErr with
  | some e => some e
  | none =>
    match ctx.Err now with
    | some e => some e
    | none => proc.startErr

/-- The outcome of one `CompositeTask.Execute` call: the error returned
(`none` is nil), whether the external process was started, the argument vector
handed to `exec.CommandContext` (`none` when the call does not get that far),
and the instant of the return. -/
structure Outcome where
  err : Option GoError
  started : Bool
  argv : Option (List Str)
  finishedAt : Nat
  deriving DecidableEq, Repr

/-- The method `(*CompositeTask).Execute`, called at instant `now` on the
pointer `task` (`none` is nil).  `quote` is the `%q` verb of `fmt` (Go
`strconv.Quote`).  A panic while `args` is built is recovered by the deferred
function, which makes its error the result; no command has been made then. -/
def CompositeTask.Execute (quote : Str → Str) (task : Option CompositeTask) (ctx : Context)
    (now : Nat) (proc : Process) : Outcome :=
  match CompositeTask.args task with
  | none => ⟨some (CompositeTask.recovered runtime.nilDereference), false, none, now⟩
  | some args =>
    match exec.Start ctx now proc with
    | some err =>
      let t := now + proc.startTicks
      match ctx.Err t with
      | some cerr => ⟨some cerr, false, some args, t⟩
      | none =>
        ⟨some (.wrapError ("task failed to start: ".toList ++ err.Error) err), false,
          some args, t⟩
    | none =>
      let t := now + proc.startTicks + proc.waitTicks
      match proc.waitErr with
      | some err =>
        match ctx.Err t with
        | some cerr => ⟨some cerr, true, some args, t⟩
        | none =>
          ⟨some (.wrapError ("task failed: ".toList ++ quote (strings.TrimSpace proc.output)
              ++ ", ".toList ++ err.Error) err), true, some args, t⟩
      | none => ⟨ctx.Err t, true, some args, t⟩

/-! ## Bounded dispatcher (`main.go`, lines 206-224) -/

/-- The struct `CompositeDispatch`: the channel `Semaphore`, as its capacity
and the number of items it holds. -/
structure CompositeDispatch where
  size : Nat
  held : Nat
  deriving DecidableEq, Repr

/-- The function `newCompositeDispatch`: an empty channel of capacity `size`. -/
def newCompositeDispatch (size : Nat) : CompositeDispatch := ⟨size, 0⟩

/-- The send `dispatch.Semaphore <- struct{}{}`: it can proceed only while the
channel holds fewer items than its capacity (`none`: the send blocks).  With
capacity 0 the channel is unbuffered and a send needs a waiting receiver; the
only receive of the program is `Release`, which a call reaches after its own
send, so no send proceeds. -/
def CompositeDispatch.Acquire (dispatch : CompositeDispatch) : Option CompositeDispatch :=
  if dispatch.held < dispatch.size then some { dispatch with held := dispatch.held + 1 }
  else none

/-- The method `(*CompositeDispatch).Release`: one item is received from the
channel (`none`: the receive blocks on an empty channel). -/
def CompositeDispatch.Release (dispatch : CompositeDispatch) : Option CompositeDispatch :=
  if 0 < dispatch.held then some { dispatch with held := dispatch.held - 1 } else none

/-- The two cases of the `select` of `CompositeDispatch.Execute`. -/
inductive SelectCase where
  | done
  | send
  deriving DecidableEq, Repr

/-- The method `(*CompositeDispatch).Execute`, called at instant `now` with the
task pointer `task` on a dispatcher whose other slots do not change meanwhile.
When both cases of the `select` are ready Go picks one at random: `pick` is
that choice.  `none`: no case is ready and the call blocks. -/
def CompositeDispatch.Execute (quote : Str → Str) (dispatch : CompositeDispatch)
    (ctx : Context) (task : Option CompositeTask) (now : Nat) (pick : SelectCase)
    (proc : Process) : Option (Outcome × CompositeDispatch) :=
  match ctx.Err now, dispatch.Acquire with
  | none, none => none
  | some cerr, none => some (⟨some cerr, false, none, now⟩, dispatch)
  | none, some taken =>
    (taken.Release).map
      (fun released => (CompositeTask.Execute quote task ctx now proc, released))
  | some cerr, some taken =>
    match pick with
    | .done => some (⟨some cerr, false, none, now⟩, dispatch)
    | .send =>
      (taken.Release).map
        (fun released => (CompositeTask.Execute quote task ctx now proc, released))

/-- Where one `CompositeDispatch.Execute` call stands: at the `select`, inside
`task.Execute` (after the send), at the deferred `Release` (the task has
finished), or returned. -/
inductive CallState where
  | selecting
  | executing
  | releasing
  | returned
  deriving DecidableEq, Repr

/-- The dispatcher and the calls in flight. -/
structure System where
  dispatch : CompositeDispatch
  calls : List CallState
  deriving DecidableEq, Repr

/-- The steps of the calls: a new call reaches the `select`; call `i` takes the
case `<- ctx.Done()` and returns; call `i` takes the send case and starts its
task; the task of call `i` finishes, with or without an error; call `i` runs the
deferred `Release` and returns. -/
inductive Step where
  | call
  | cancel (i : Nat)
  | send (i : Nat)
  | finish (i : Nat) (failed : Bool)
  | release (i : Nat)
  deriving DecidableEq, Repr

/-- One step of the system; `none` when the step is not enabled. -/
def System.step (s : System) : Step → Option System
  | .call => some { s with calls := s.calls ++ [.selecting] }
  | .cancel i =>
    if s.calls.get? i = some .selecting then some { s with calls := s.calls.set i .returned }
    else none
  | .send i =>
    if s.calls.get? i = some .selecting then
      (s.dispatch.Acquire).map (fun d => { dispatch := d, calls := s.calls.set i .executing })
    else none
  | .finish i _ =>
    if s.calls.get? i = some .executing then some { s with calls := s.calls.set i .releasing }
    else none
  | .release i =>
    if s.calls.get? i = some .releasing then
      (s.dispatch.Release).map (fun d => { dispatch := d, calls := s.calls.set i .returned })
    else none

/-- The system after a sequence of steps; `none` when one is not enabled. -/
def System.run (s : System) : List Step → Option System
  | [] => some s
  | st :: rest => (s.step st).bind (fun s1 => s1.run rest)

/-- The number of tasks mid-execution. -/
def System.executing (s : System) : Nat := s.calls.count .executing

/-- The system of a dispatcher just built with capacity `size`. -/
def System.init (size : Nat) : System := ⟨newCompositeDispatch size, []⟩

/-! ## Auxiliary definitions: invariants and the values used in the examples -/

/-- The values of type `int64`. -/
abbrev isInt64 (v : Int) : Prop := -2 ^ 63 ≤ v ∧ v < 2 ^ 63

/-- The default limits of `main`. -/
def defaultLimits : CompositeLimits := ⟨5 * 1024 * 1024, 1024, 1024, 2, 120, 5, 1000⟩

/-- Options over the extreme values of `int64`. -/
def extremeOptions : CompositeOptions :=
  ⟨-9223372036854775808, 9223372036854775807, 0, -1, true, false, true, 255⟩

/-- A task over the extreme values of `int64`. -/
def extremeTask : CompositeTask :=
  ⟨some extremeOptions, "/data/in.png".toList, "/data/in-out.gif".toList,
    "/app/bin/gifspin-core".toList⟩

/-- A task whose `Options` pointer is nil. -/
def nilOptionsTask : CompositeTask :=
  ⟨none, "/data/in.png".toList, "/data/in-out.gif".toList, "/app/bin/gifspin-core".toList⟩

/-- The error the deferred function makes of the panic of a nil dereference. -/
def taskPanicError : GoError :=
  .wrapError
    "task panic: runtime error: invalid memory address or nil pointer dereference".toList
    (.errorString "runtime error: invalid memory address or nil pointer dereference".toList)

/-- A process whose executable cannot be started. -/
def missingProcess : Process :=
  ⟨none, some (.errorString "fork/exec /app/bin/gifspin-core: no such file or directory".toList),
    1, none, 0, []⟩

/-- A process whose executable was not found when the command was made. -/
def unresolvedProcess : Process :=
  ⟨some (.errorString "exec: no command".toList), none, 1, none, 0, []⟩

/-- A process that starts and exits with status 0 after one tick. -/
def cleanProcess : Process := ⟨none, none, 0, none, 1, []⟩

/-- An error that wraps `context.Canceled` and an `APIError` of status 404 whose
cause is a JSON syntax error. -/
def canceledWithAPIError : GoError :=
  .wrapErrors "context canceled: bad".toList .canceled
    (.apiError (.syntaxError "bad".toList) 404)

/-- An error that wraps `context.DeadlineExceeded` and `context.Canceled`. -/
def deadlineAndCanceled : GoError :=
  .wrapErrors "context deadline exceeded: context canceled".toList .deadlineExceeded .canceled

/-- An error that wraps a JSON syntax error and `context.DeadlineExceeded`. -/
def syntaxAndDeadline : GoError :=
  .wrapErrors "bad: context deadline exceeded".toList (.syntaxError "bad".toList)
    .deadlineExceeded

/-- An error that wraps the error of a body over the limit and a JSON syntax
error. -/
def tooLargeAndSyntax : GoError :=
  .wrapErrors "http: request body too large: bad".toList
    (.errorString "http: request body too large".toList) (.syntaxError "bad".toList)

/-- The invariant of the dispatcher: the items the channel holds are those of
the calls between their send and their `Release`, and never exceed the
capacity. -/
def System.Inv (s : System) : Prop :=
  s.calls.count .executing + s.calls.count .releasing = s.dispatch.held ∧
    s.dispatch.held ≤ s.dispatch.size

/-- Go `strconv.Quote` on a string of printable ASCII characters other than the
double quote and the backslash: the string between double quotes. -/
def quotePlain (s : Str) : Str := Char.ofNat 34 :: s ++ [Char.ofNat 34]

/-- A context cancelled at instant 3. -/
def cancelledAt3 : Context := ⟨some 3, false⟩

/-- A process that starts, writes a diagnostic and exits with status 1 after
two ticks. -/
def failingProcess : Process :=
  ⟨none, none, 1, some (.errorString "exit status 1".toList), 2, " bad frame\n".toList⟩

/-- Ten zero bytes. -/
def zeroBytes : List Nat := [0, 0, 0, 0, 0, 0, 0, 0, 0, 0]

/-- Nine zero bytes and a one. -/
def oneBytes : List Nat := [0, 0, 0, 0, 0, 0, 0, 0, 0, 1]

/-- The elements `filepath.Clean` has written form a clean path: cleaning them
again writes the same elements, and none is empty, `.` or holds a slash. -/
def filepath.Written (rooted : Bool) (out : List Str) : Prop :=
  out.reverse.foldl (filepath.cleanStep rooted) [] = out ∧
    ∀ e ∈ out, e ≠ [] ∧ e ≠ ['.'] ∧ '/' ∉ e

/-- The directory part of the cleaned path of a name appended to the written
elements `out`. -/
def filepath.dirPart (rooted : Bool) (out : List Str) : Str :=
  match out with
  | [] => if rooted then ['/'] else []
  | _ :: _ => (if rooted then ['/'] else []) ++ ['/'].intercalate out.reverse ++ ['/']

/-! # Properties -/

/-! ## Decimal round trip -/

theorem strconv.digit_spec (d : Nat) (h : d < 10) :
    ('0' ≤ strconv.digit d ∧ strconv.digit d ≤ '9') ∧ (strconv.digit d).toNat - 48 = d
      ∧ strconv.digit d ≠ '+' ∧ strconv.digit d ≠ '-' := by
  interval_cases d <;> decide

theorem strconv.parseLoop_append (a b : Str) (n : Nat) :
    strconv.parseLoop (a ++ b) n = (strconv.parseLoop a n).bind (strconv.parseLoop b) := by
  induction a generalizing n with
  | nil => simp [strconv.parseLoop]
  | cons c cs ih =>
    simp only [List.cons_append, strconv.parseLoop]
    split
    · split
      · exact ih _
      · rfl
    · rfl

theorem strconv.parseLoop_digit (d n : Nat) (h : d < 10) (hn : n * 10 + d < 2 ^ 64) :
    strconv.parseLoop [strconv.digit d] n = some (n * 10 + d) := by
  obtain ⟨h1, h2, -, -⟩ := strconv.digit_spec d h
  simp only [strconv.parseLoop, h1, h2, and_self, if_true, hn]

theorem strconv.parseLoop_formatBits (fuel u : Nat) (hf : u < fuel) (hu : u < 2 ^ 64) :
    strconv.parseLoop (strconv.formatBits fuel u) 0 = some u := by
  induction fuel generalizing u with
  | zero => omega
  | succ f ih =>
    unfold strconv.formatBits
    split
    · rename_i h10
      have := strconv.parseLoop_digit u 0 h10 (by omega)
      simpa using this
    · rename_i h10
      rw [strconv.parseLoop_append, ih (u / 10) (by omega) (by omega)]
      simp only [Option.some_bind]
      rw [strconv.parseLoop_digit (u % 10) (u / 10) (by omega) (by omega)]
      congr 1
      omega

theorem strconv.formatBits_head (fuel u : Nat) (hf : 0 < fuel) :
    ∃ d rest, d < 10 ∧ strconv.formatBits fuel u = strconv.digit d :: rest := by
  induction fuel generalizing u with
  | zero => omega
  | succ f ih =>
    unfold strconv.formatBits
    split
    · rename_i h10
      exact ⟨u, [], h10, rfl⟩
    · rename_i h10
      rcases Nat.eq_zero_or_pos f with h | h
      · subst h
        exact ⟨u % 10, [], Nat.mod_lt _ (by decide), by simp [strconv.formatBits]⟩
      · obtain ⟨d, rest, hd, he⟩ := ih (u / 10) h
        exact ⟨d, rest ++ [strconv.digit (u % 10)], hd, by simp [he]⟩

theorem strconv.ParseInt_FormatInt (v : Int) (hlo : -2 ^ 63 ≤ v) (hhi : v < 2 ^ 63) :
    strconv.ParseInt (strconv.FormatInt v) = some v := by
  unfold strconv.FormatInt
  split
  · rename_i hneg
    have hp := strconv.parseLoop_formatBits (v.natAbs + 1) v.natAbs (by omega) (by omega)
    obtain ⟨d, rest, hd, he⟩ := strconv.formatBits_head (v.natAbs + 1) v.natAbs (by omega)
    have hne : strconv.formatBits (v.natAbs + 1) v.natAbs ≠ [] := by simp [he]
    simp only [strconv.ParseInt, strconv.ParseUint, hne, if_false, hp]
    simp
    rw [if_neg hne, hp]
    have habs := abs_of_neg hneg
    simp
    omega
  · rename_i hneg
    have hp := strconv.parseLoop_formatBits (v.natAbs + 1) v.natAbs (by omega) (by omega)
    obtain ⟨d, rest, hd, he⟩ := strconv.formatBits_head (v.natAbs + 1) v.natAbs (by omega)
    obtain ⟨-, -, h3, h4⟩ := strconv.digit_spec d hd
    rw [he] at hp ⊢
    simp only [strconv.ParseInt, strconv.ParseUint, h3, h4, or_self, if_false, hp]
    have habs := abs_of_nonneg (not_lt.mp hneg)
    simp [h4]
    omega

/-! ## Limits validator -/


/-- C2: `Validate` returns no error exactly when all six bounds hold; otherwise
the error names the first violated bound in the order width, height, frameCount
minimum, frameCount maximum, frameDelay minimum, frameDelay maximum, with the
offending value and the bound, whatever later bounds are violated too. -/
theorem Validate_reports_first_violation (o : CompositeOptions) (l : CompositeLimits) :
    (o.Validate l = none ↔
      o.Width ≤ l.WidthMax ∧ o.Height ≤ l.HeightMax ∧
      l.FrameCountMin ≤ o.FrameCount ∧ o.FrameCount ≤ l.FrameCountMax ∧
      l.FrameDelayMin ≤ o.FrameDelay ∧ o.FrameDelay ≤ l.FrameDelayMax) ∧
    (o.Width > l.WidthMax →
      o.Validate l = some ("width ".toList ++ strconv.FormatInt o.Width
        ++ " is larger than maximum ".toList ++ strconv.FormatInt l.WidthMax)) ∧
    (o.Width ≤ l.WidthMax → o.Height > l.HeightMax →
      o.Validate l = some ("height ".toList ++ strconv.FormatInt o.Height
        ++ " is larger than maximum ".toList ++ strconv.FormatInt l.HeightMax)) ∧
    (o.Width ≤ l.WidthMax → o.Height ≤ l.HeightMax → o.FrameCount < l.FrameCountMin →
      o.Validate l = some ("frameCount ".toList ++ strconv.FormatInt o.FrameCount
        ++ " is smaller than minimum ".toList ++ strconv.FormatInt l.FrameCountMin)) ∧
    (o.Width ≤ l.WidthMax → o.Height ≤ l.HeightMax → l.FrameCountMin ≤ o.FrameCount →
      o.FrameCount > l.FrameCountMax →
      o.Validate l = some ("frameCount ".toList ++ strconv.FormatInt o.FrameCount
        ++ " is larger than maximum ".toList ++ strconv.FormatInt l.FrameCountMax)) ∧
    (o.Width ≤ l.WidthMax → o.Height ≤ l.HeightMax → l.FrameCountMin ≤ o.FrameCount →
      o.FrameCount ≤ l.FrameCountMax → o.FrameDelay < l.FrameDelayMin →
      o.Validate l = some ("frameDelay ".toList ++ strconv.FormatInt o.FrameDelay
        ++ " is smaller than minimum ".toList ++ strconv.FormatInt l.FrameDelayMin)) ∧
    (o.Width ≤ l.WidthMax → o.Height ≤ l.HeightMax → l.FrameCountMin ≤ o.FrameCount →
      o.FrameCount ≤ l.FrameCountMax → l.FrameDelayMin ≤ o.FrameDelay →
      o.FrameDelay > l.FrameDelayMax →
      o.Validate l = some ("frameDelay ".toList ++ strconv.FormatInt o.FrameDelay
        ++ " is larger than maximum ".toList ++ strconv.FormatInt l.FrameDelayMax)) := by
  refine ⟨?_, ?_, ?_, ?_, ?_, ?_, ?_⟩
  · unfold CompositeOptions.Validate
    constructor
    · intro h
      split_ifs at h
      omega
    · intro h
      split_ifs <;> first | rfl | omega
  all_goals
    intros
    unfold CompositeOptions.Validate
    split_ifs <;> first | rfl | omega

/-- C2, at options that break every bound against the default limits: the
error names the width. -/
theorem Validate_reports_first_violation_witness :
    CompositeOptions.Validate ⟨2000, 3000, 1, 1, false, false, false, 0⟩ defaultLimits
      = some "width 2000 is larger than maximum 1024".toList :=
  ((Validate_reports_first_violation ⟨2000, 3000, 1, 1, false, false, false, 0⟩
    defaultLimits).2.1 (by decide)).trans (by decide)

/-! ## Argument vector -/

theorem CompositeTask.Execute_argv (quote : Str → Str) (task : Option CompositeTask)
    (ctx : Context) (now : Nat) (proc : Process) :
    (CompositeTask.Execute quote task ctx now proc).argv = CompositeTask.args task := by
  unfold CompositeTask.Execute
  cases CompositeTask.args task with
  | none => rfl
  | some args =>
    dsimp only
    cases exec.Start ctx now proc with
    | some err =>
      dsimp only
      cases ctx.Err (now + proc.startTicks) <;> rfl
    | none =>
      dsimp only
      cases proc.waitErr with
      | some err =>
        dsimp only
        cases ctx.Err (now + proc.startTicks + proc.waitTicks) <;> rfl
      | none => rfl

/-- C7: the argument vector of `CompositeTask.Execute` has exactly ten elements
in the order width, height, frameCount, frameDelay as signed decimals, the three
flags crop, reverse, flatten as `1` or `0`, background as a signed decimal, the
input path, the output path; and parsing each decimal gives back the 64-bit
integer.  That vector is passed for every task that is not nil and whose
`Options` pointer is not nil; for the others the call panics before it makes a
command, and passes none. -/
theorem Execute_argument_vector (quote : Str → Str) (task : Option CompositeTask)
    (ctx : Context) (now : Nat) (proc : Process) :
    (∀ t opts, task = some t → t.Options = some opts →
      (CompositeTask.Execute quote task ctx now proc).argv = some
        [strconv.FormatInt opts.Width,
         strconv.FormatInt opts.Height,
         strconv.FormatInt opts.FrameCount,
         strconv.FormatInt opts.FrameDelay,
         if opts.FlagCrop then ['1'] else ['0'],
         if opts.FlagReverse then ['1'] else ['0'],
         if opts.FlagFlatten then ['1'] else ['0'],
         strconv.FormatInt opts.Background,
         t.PathInput,
         t.PathOutput] ∧
      (isInt64 opts.Width →
        strconv.ParseInt (strconv.FormatInt opts.Width) = some opts.Width) ∧
      (isInt64 opts.Height →
        strconv.ParseInt (strconv.FormatInt opts.Height) = some opts.Height) ∧
      (isInt64 opts.FrameCount →
        strconv.ParseInt (strconv.FormatInt opts.FrameCount) = some opts.FrameCount) ∧
      (isInt64 opts.FrameDelay →
        strconv.ParseInt (strconv.FormatInt opts.FrameDelay) = some opts.FrameDelay) ∧
      (isInt64 opts.Background →
        strconv.ParseInt (strconv.FormatInt opts.Background) = some opts.Background)) ∧
    (∀ args, (CompositeTask.Execute quote task ctx now proc).argv = some args →
      args.length = 10 ∧ ∃ t opts, task = some t ∧ t.Options = some opts) ∧
    ((task = none ∨ ∃ t, task = some t ∧ t.Options = none) →
      (CompositeTask.Execute quote task ctx now proc).argv = none) := by
  rw [CompositeTask.Execute_argv]
  refine ⟨?_, ?_, ?_⟩
  · intro t opts ht ho
    subst ht
    refine ⟨?_, fun h => strconv.ParseInt_FormatInt _ h.1 h.2,
      fun h => strconv.ParseInt_FormatInt _ h.1 h.2,
      fun h => strconv.ParseInt_FormatInt _ h.1 h.2,
      fun h => strconv.ParseInt_FormatInt _ h.1 h.2,
      fun h => strconv.ParseInt_FormatInt _ h.1 h.2⟩
    simp only [CompositeTask.args, ho, argInt, argFlag]
    rfl
  · intro args h
    cases task with
    | none => simp [CompositeTask.args] at h
    | some t =>
      cases ho : t.Options with
      | none => simp [CompositeTask.args, ho] at h
      | some opts =>
        simp only [CompositeTask.args, ho, Option.some.injEq] at h
        subst h
        exact ⟨rfl, t, opts, rfl, ho⟩
  · rintro (h | ⟨t, ht, ho⟩)
    · subst h
      rfl
    · subst ht
      simp only [CompositeTask.args, ho]

/-- C7, at a task over the extreme values of `int64`. -/
theorem Execute_argument_vector_witness :
    (CompositeTask.Execute quotePlain (some extremeTask) ⟨none, false⟩ 0 cleanProcess).argv =
      some ["-9223372036854775808".toList, "9223372036854775807".toList, "0".toList,
        "-1".toList, "1".toList, "0".toList, "1".toList, "255".toList,
        "/data/in.png".toList, "/data/in-out.gif".toList] ∧
    strconv.ParseInt (strconv.FormatInt extremeOptions.Width) = some extremeOptions.Width ∧
    strconv.ParseInt "-9223372036854775808".toList = some (-9223372036854775808) :=
  ⟨((Execute_argument_vector quotePlain (some extremeTask) ⟨none, false⟩ 0 cleanProcess).1
      extremeTask extremeOptions rfl rfl).1.trans (by decide),
   ((Execute_argument_vector quotePlain (some extremeTask) ⟨none, false⟩ 0 cleanProcess).1
      extremeTask extremeOptions rfl rfl).2.1 (by decide),
   by decide⟩

/-! ## Error classifier -/

theorem APIError.StatusCode_range (e : Option APIError) :
    100 ≤ APIError.StatusCode e ∧ APIError.StatusCode e ≤ 599 := by
  unfold APIError.StatusCode
  split
  · decide
  · split <;> omega

theorem APIError.Error_ne_nil (e : Option APIError) : APIError.Error e ≠ [] := by
  unfold APIError.Error
  dsimp only
  split
  · decide
  · assumption

/-- C3, as stated, fails at two errors.  For `errors.New("")`, which wraps no
`APIError` and falls to rule (6), the resulting message is `undefined`, not the
(empty) message of the error.  For an `APIError` without a cause whose stored
status is 42, rule (1) does not pass the status through unchanged: the result
stores 500. -/
theorem newAPIErrorFrom_message_counterexample :
    (errors.AsAPIError (.errorString []) = none ∧
      newAPIErrorFrom (some (.errorString [])) = ⟨some (.errorString []), 500⟩ ∧
      APIError.Error (some (newAPIErrorFrom (some (.errorString [])))) = "undefined".toList ∧
      APIError.Error (some (newAPIErrorFrom (some (.errorString []))))
        ≠ GoError.Error (.errorString [])) ∧
    (errors.AsAPIError (.apiErrorNoCause 42) = some (some ⟨none, 42⟩) ∧
      newAPIErrorFrom (some (.apiErrorNoCause 42)) = ⟨none, 500⟩ ∧
      (newAPIErrorFrom (some (.apiErrorNoCause 42))).status ≠ 42) := by
  decide

/-- C3, amended: `newAPIErrorFrom` assigns the status by the first rule that
applies: (1) the first `APIError` of the error gives its cause unchanged and
its status as `StatusCode` reports it, that is the stored status when it lies
in [100, 599] and 500 otherwise, whatever the cause is; (2) else
`context.Canceled` gives 500; (3) else `context.DeadlineExceeded` gives 504;
(4) else a JSON syntax error gives 400; (5) else a message containing `request
body too large` gives 413; (6) otherwise 500.  Each rule asks only that the
earlier ones do not apply, so it wins over every later rule that applies too.
In cases (2)-(6) the error itself is the cause, and the resulting message is its
message when that is not empty and `undefined` when it is. -/
theorem newAPIErrorFrom_priority (e : GoError) :
    (∀ impl, errors.AsAPIError e = some impl →
      newAPIErrorFrom (some e) = ⟨APIError.Unwrap impl, APIError.StatusCode impl⟩ ∧
      APIError.Unwrap (some (newAPIErrorFrom (some e))) = APIError.Unwrap impl ∧
      APIError.StatusCode (some (newAPIErrorFrom (some e))) = APIError.StatusCode impl ∧
      (∀ a, impl = some a → 100 ≤ a.status → a.status ≤ 599 →
        newAPIErrorFrom (some e) = ⟨a.err, a.status⟩) ∧
      (∀ a, impl = some a → (a.status < 100 ∨ 599 < a.status) →
        newAPIErrorFrom (some e) = ⟨a.err, 500⟩) ∧
      (impl = none → newAPIErrorFrom (some e) = ⟨none, 500⟩)) ∧
    (errors.AsAPIError e = none →
      (errors.Is e .canceled = true → newAPIErrorFrom (some e) = ⟨some e, 500⟩) ∧
      (errors.Is e .canceled = false → errors.Is e .deadlineExceeded = true →
        newAPIErrorFrom (some e) = ⟨some e, 504⟩) ∧
      (errors.Is e .canceled = false → errors.Is e .deadlineExceeded = false →
        errors.AsSyntaxError e = true → newAPIErrorFrom (some e) = ⟨some e, 400⟩) ∧
      (errors.Is e .canceled = false → errors.Is e .deadlineExceeded = false →
        errors.AsSyntaxError e = false →
        strings.Contains e.Error "request body too large".toList = true →
        newAPIErrorFrom (some e) = ⟨some e, 413⟩) ∧
      (errors.Is e .canceled = false → errors.Is e .deadlineExceeded = false →
        errors.AsSyntaxError e = false →
        strings.Contains e.Error "request body too large".toList = false →
        newAPIErrorFrom (some e) = ⟨some e, 500⟩) ∧
      APIError.Error (some (newAPIErrorFrom (some e)))
        = if e.Error = [] then "undefined".toList else e.Error) := by
  constructor
  · intro impl h
    have h1 : newAPIErrorFrom (some e) = ⟨APIError.Unwrap impl, APIError.StatusCode impl⟩ := by
      simp only [newAPIErrorFrom, h, newAPIError]
    refine ⟨h1, ?_, ?_, ?_, ?_, ?_⟩
    · rw [h1]
      rfl
    · rw [h1]
      have hr := APIError.StatusCode_range impl
      show (if APIError.StatusCode impl < 100 ∨ APIError.StatusCode impl > 599 then 500
        else APIError.StatusCode impl) = APIError.StatusCode impl
      rw [if_neg (by omega)]
    · intro a ha hlo hhi
      subst ha
      rw [h1]
      simp only [APIError.Unwrap, APIError.StatusCode]
      rw [if_neg (by omega)]
    · intro a ha hout
      subst ha
      rw [h1]
      simp only [APIError.Unwrap, APIError.StatusCode]
      rw [if_pos (by omega)]
    · intro ha
      subst ha
      rw [h1]
      rfl
  · intro h
    have hcause : (newAPIErrorFrom (some e)).err = some e := by
      simp only [newAPIErrorFrom, h, newAPIError]
      split_ifs <;> rfl
    refine ⟨?_, ?_, ?_, ?_, ?_, ?_⟩
    · intro h1
      simp [newAPIErrorFrom, h, newAPIError, h1]
    · intro h1 h2
      simp [newAPIErrorFrom, h, newAPIError, h1, h2]
    · intro h1 h2 h3
      simp [newAPIErrorFrom, h, newAPIError, h1, h2, h3]
    · intro h1 h2 h3 h4
      simp only [newAPIErrorFrom, h, newAPIError, h1, h2, h3, h4]
      rfl
    · intro h1 h2 h3 h4
      simp only [newAPIErrorFrom, h, newAPIError, h1, h2, h3, h4]
      rfl
    · simp only [APIError.Error, APIError.Unwrap, hcause]

/-- C3, at errors to which two rules apply: the earlier rule wins.  An error
that wraps an `APIError` of status 404 and `context.Canceled` (rules 1 and 2);
one that wraps `context.DeadlineExceeded` and `context.Canceled` (rules 2 and
3); one that wraps a JSON syntax error and `context.DeadlineExceeded` (rules 3
and 4); one that wraps a JSON syntax error and whose message contains `request
body too large` (rules 4 and 5). -/
theorem newAPIErrorFrom_priority_witness :
    (errors.Is canceledWithAPIError .canceled = true ∧
      newAPIErrorFrom (some canceledWithAPIError) = ⟨some (.syntaxError "bad".toList), 404⟩) ∧
    (errors.Is deadlineAndCanceled .canceled = true ∧
      errors.Is deadlineAndCanceled .deadlineExceeded = true ∧
      newAPIErrorFrom (some deadlineAndCanceled) = ⟨some deadlineAndCanceled, 500⟩) ∧
    (errors.Is syntaxAndDeadline .deadlineExceeded = true ∧
      errors.AsSyntaxError syntaxAndDeadline = true ∧
      newAPIErrorFrom (some syntaxAndDeadline) = ⟨some syntaxAndDeadline, 504⟩) ∧
    (errors.AsSyntaxError tooLargeAndSyntax = true ∧
      strings.Contains tooLargeAndSyntax.Error "request body too large".toList = true ∧
      newAPIErrorFrom (some tooLargeAndSyntax) = ⟨some tooLargeAndSyntax, 400⟩) :=
  ⟨⟨by decide,
    ((newAPIErrorFrom_priority canceledWithAPIError).1
      (some ⟨some (.syntaxError "bad".toList), 404⟩) (by decide)).1.trans (by decide)⟩,
   ⟨by decide, by decide,
    ((newAPIErrorFrom_priority deadlineAndCanceled).2 (by decide)).1 (by decide)⟩,
   ⟨by decide, by decide,
    ((newAPIErrorFrom_priority syntaxAndDeadline).2 (by decide)).2.1 (by decide) (by decide)⟩,
   ⟨by decide, by decide,
    ((newAPIErrorFrom_priority tooLargeAndSyntax).2 (by decide)).2.2.1 (by decide) (by decide)
      (by decide)⟩⟩

/-- C10, as stated, fails: an `APIError` without a cause and with status 599 has
the status code 599, whose generic status text is empty, and its message is
`undefined`, not that text. -/
theorem APIError_message_counterexample :
    APIError.Unwrap (some ⟨none, 599⟩) = none ∧
    APIError.StatusCode (some ⟨none, 599⟩) = 599 ∧
    http.StatusText (APIError.StatusCode (some ⟨none, 599⟩)) = [] ∧
    APIError.Error (some ⟨none, 599⟩) = "undefined".toList ∧
    APIError.Error (some ⟨none, 599⟩) ≠ http.StatusText (APIError.StatusCode (some ⟨none, 599⟩)) ∧
    newAPIErrorFrom (some (.apiErrorNoCause 599)) = ⟨none, 599⟩ := by
  decide

/-- C10, amended: for every `APIError` value, the nil pointer included, and so
for every result of `newAPIErrorFrom`, `StatusCode` lies in [100, 599], is the
stored status when that is in [100, 599] and 500 otherwise; `Error` is not
empty: it is the message of the cause when there is a cause with a non-empty
message, the generic status text when there is no cause and that text is not
empty, and `undefined` in the remaining cases. -/
theorem APIError_status_and_message (e : Option APIError) (err : Option GoError) :
    (100 ≤ APIError.StatusCode e ∧ APIError.StatusCode e ≤ 599) ∧
    (∀ a, e = some a → 100 ≤ a.status → a.status ≤ 599 → APIError.StatusCode e = a.status) ∧
    (∀ a, e = some a → (a.status < 100 ∨ 599 < a.status) → APIError.StatusCode e = 500) ∧
    (e = none → APIError.StatusCode e = 500) ∧
    APIError.Error e ≠ [] ∧
    (∀ c, APIError.Unwrap e = some c → c.Error ≠ [] → APIError.Error e = c.Error) ∧
    (∀ c, APIError.Unwrap e = some c → c.Error = [] → APIError.Error e = "undefined".toList) ∧
    (APIError.Unwrap e = none → http.StatusText (APIError.StatusCode e) ≠ [] →
      APIError.Error e = http.StatusText (APIError.StatusCode e)) ∧
    (APIError.Unwrap e = none → http.StatusText (APIError.StatusCode e) = [] →
      APIError.Error e = "undefined".toList) ∧
    (100 ≤ APIError.StatusCode (some (newAPIErrorFrom err)) ∧
      APIError.StatusCode (some (newAPIErrorFrom err)) ≤ 599) ∧
    APIError.Error (some (newAPIErrorFrom err)) ≠ [] ∧
    (APIError.StatusCode (some (newAPIErrorFrom none)) = 500 ∧
      APIError.Error (some (newAPIErrorFrom none)) = "Internal Server Error".toList) := by
  refine ⟨APIError.StatusCode_range e, ?_, ?_, ?_, APIError.Error_ne_nil e, ?_, ?_, ?_, ?_,
    APIError.StatusCode_range _, APIError.Error_ne_nil _, by decide⟩
  · intro a ha h1 h2
    subst ha
    simp only [APIError.StatusCode]
    rw [if_neg (by omega)]
  · intro a ha h
    subst ha
    simp only [APIError.StatusCode]
    rw [if_pos (by omega)]
  · intro ha
    subst ha
    rfl
  · intro c hc hne
    simp only [APIError.Error, hc, if_neg hne]
  · intro c hc hnil
    simp only [APIError.Error, hc, if_pos hnil]
  · intro hc hne
    simp only [APIError.Error, hc, if_neg hne]
  · intro hc hnil
    simp only [APIError.Error, hc, if_pos hnil]

/-- C10, at the `APIError` that `main` builds for an unknown route: no cause,
status 404. -/
theorem APIError_status_and_message_witness :
    APIError.StatusCode (some ⟨none, 404⟩) = 404 ∧
    APIError.Error (some ⟨none, 404⟩) = "Not Found".toList :=
  ⟨(APIError_status_and_message (some ⟨none, 404⟩) none).2.1 ⟨none, 404⟩ rfl
      (by decide) (by decide),
   ((APIError_status_and_message (some ⟨none, 404⟩) none).2.2.2.2.2.2.2.1 (by decide)
      (by decide)).trans (by decide)⟩

/-! ## Bounded dispatcher -/

theorem count_set_of_get? (l : List CallState) (i : Nat) (a b c : CallState)
    (h : l.get? i = some a) :
    (l.set i b).count c + (if a = c then 1 else 0) = l.count c + (if b = c then 1 else 0) := by
  induction l generalizing i with
  | nil => simp at h
  | cons x xs ih =>
    cases i with
    | zero =>
      simp only [List.get?_cons_zero, Option.some.injEq] at h
      subst h
      simp only [List.set_cons_zero, List.count_cons, beq_iff_eq]
      omega
    | succ j =>
      simp only [List.get?_cons_succ] at h
      have := ih j h
      simp only [List.set_cons_succ, List.count_cons]
      omega


theorem System.step_inv (s s1 : System) (st : Step) (h : s.step st = some s1) (hi : s.Inv) :
    s1.Inv ∧ s1.dispatch.size = s.dispatch.size := by
  obtain ⟨hc, hs⟩ := hi
  cases st with
  | call =>
    simp only [System.step, Option.some.injEq] at h
    subst h
    simp only [System.Inv, List.count_append, List.count_cons, List.count_nil]
    simp
    exact ⟨hc, hs⟩
  | cancel i =>
    simp only [System.step] at h
    split_ifs at h with hg
    simp only [Option.some.injEq] at h
    subst h
    have h1 := count_set_of_get? s.calls i _ .returned .executing hg
    have h2 := count_set_of_get? s.calls i _ .returned .releasing hg
    simp at h1 h2
    exact ⟨⟨by simp only; omega, hs⟩, rfl⟩
  | send i =>
    simp only [System.step] at h
    split_ifs at h with hg
    simp only [CompositeDispatch.Acquire] at h
    split_ifs at h with hlt
    swap
    · simp at h
    simp only [Option.map_some', Option.some.injEq] at h
    subst h
    have h1 := count_set_of_get? s.calls i _ .executing .executing hg
    have h2 := count_set_of_get? s.calls i _ .executing .releasing hg
    simp at h1 h2
    exact ⟨⟨by simp only; omega, by simp only; omega⟩, rfl⟩
  | finish i failed =>
    simp only [System.step] at h
    split_ifs at h with hg
    simp only [Option.some.injEq] at h
    subst h
    have h1 := count_set_of_get? s.calls i _ .releasing .executing hg
    have h2 := count_set_of_get? s.calls i _ .releasing .releasing hg
    simp at h1 h2
    exact ⟨⟨by simp only; omega, hs⟩, rfl⟩
  | release i =>
    simp only [System.step] at h
    split_ifs at h with hg
    simp only [CompositeDispatch.Release] at h
    split_ifs at h with hlt
    swap
    · simp at h
    simp only [Option.map_some', Option.some.injEq] at h
    subst h
    have h1 := count_set_of_get? s.calls i _ .returned .executing hg
    have h2 := count_set_of_get? s.calls i _ .returned .releasing hg
    simp at h1 h2
    exact ⟨⟨by simp only; omega, by simp only; omega⟩, rfl⟩

theorem System.run_inv (steps : List Step) (s s1 : System) (h : s.run steps = some s1)
    (hi : s.Inv) : s1.Inv ∧ s1.dispatch.size = s.dispatch.size := by
  induction steps generalizing s with
  | nil =>
    simp only [System.run, Option.some.injEq] at h
    subst h
    exact ⟨hi, rfl⟩
  | cons st rest ih =>
    simp only [System.run] at h
    cases hst : s.step st with
    | none => simp [hst] at h
    | some s2 =>
      rw [hst] at h
      obtain ⟨hi2, hsz⟩ := System.step_inv s s2 st hst hi
      obtain ⟨hi1, hsz1⟩ := ih s2 h hi2
      exact ⟨hi1, hsz1.trans hsz⟩

/-- C4: in every state reachable from the empty dispatcher of capacity `N` by
any interleaving of the steps of `Execute` calls, at most `N` tasks are
mid-execution. -/
theorem dispatcher_bounds_executing (N : Nat) (steps : List Step) (s : System)
    (h : (System.init N).run steps = some s) : s.executing ≤ N := by
  have hinit : (System.init N).Inv := by
    simp [System.Inv, System.init, newCompositeDispatch]
  obtain ⟨⟨hc, hs⟩, hsz⟩ := System.run_inv steps _ s h hinit
  have : s.dispatch.size = N := hsz
  unfold System.executing
  omega

/-- C4, at capacity 1 with three calls: the first takes the slot, the send of
the second is not enabled until the first has released, and one task is
mid-execution at the end. -/
theorem dispatcher_bounds_executing_witness :
    (System.init 1).run [.call, .call, .call, .send 0, .send 1] = none ∧
    (System.init 1).run [.call, .call, .call, .send 0, .cancel 2, .finish 0 true, .release 0,
        .send 1]
      = some ⟨⟨1, 1⟩, [.returned, .executing, .returned]⟩ ∧
    System.executing ⟨⟨1, 1⟩, [.returned, .executing, .returned]⟩ ≤ 1 :=
  ⟨by decide, by decide,
   dispatcher_bounds_executing 1
    [.call, .call, .call, .send 0, .cancel 2, .finish 0 true, .release 0, .send 1] _ (by decide)⟩

/-! ## Task execution and admission -/

theorem Context.Err_mono (ctx : Context) (now t : Nat) (cerr : GoError)
    (h : ctx.Err now = some cerr) (ht : now ≤ t) : ctx.Err t = some cerr := by
  unfold Context.Err at h ⊢
  cases hd : ctx.doneAt with
  | none => simp [hd] at h
  | some d =>
    simp only [hd] at h ⊢
    by_cases h1 : d ≤ now
    · rw [if_pos h1] at h
      rw [if_pos (by omega)]
      exact h
    · rw [if_neg h1] at h
      exact absurd h (by simp)

theorem Context.Err_kind (ctx : Context) (now : Nat) (cerr : GoError)
    (h : ctx.Err now = some cerr) : cerr = .canceled ∨ cerr = .deadlineExceeded := by
  unfold Context.Err at h
  cases hd : ctx.doneAt with
  | none => simp [hd] at h
  | some d =>
    simp only [hd] at h
    split_ifs at h with h1 h2
    · right
      exact (Option.some.inj h).symm
    · left
      exact (Option.some.inj h).symm

theorem CompositeTask.args_eq_none (task : Option CompositeTask) :
    CompositeTask.args task = none ↔ (task = none ∨ ∃ t, task = some t ∧ t.Options = none) := by
  cases task with
  | none => simp [CompositeTask.args]
  | some t =>
    cases ho : t.Options with
    | none => simp [CompositeTask.args, ho]
    | some opts => simp [CompositeTask.args, ho]

theorem CompositeTask.args_of_options (t : CompositeTask) (opts : CompositeOptions)
    (ho : t.Options = some opts) : ∃ args, CompositeTask.args (some t) = some args := by
  simp [CompositeTask.args, ho]

theorem CompositeTask.Execute_panic (quote : Str → Str) (task : Option CompositeTask)
    (ctx : Context) (now : Nat) (proc : Process) (h : CompositeTask.args task = none) :
    CompositeTask.Execute quote task ctx now proc
      = ⟨some (CompositeTask.recovered runtime.nilDereference), false, none, now⟩ := by
  simp only [CompositeTask.Execute, h]

theorem CompositeTask.Execute_done (quote : Str → Str) (task : Option CompositeTask)
    (ctx : Context) (now : Nat) (proc : Process) (cerr : GoError)
    (h : ctx.Err now = some cerr) :
    (CompositeTask.Execute quote task ctx now proc).started = false ∧
      ((∃ args, CompositeTask.args task = some args) →
        (CompositeTask.Execute quote task ctx now proc).err = some cerr) := by
  cases ha : CompositeTask.args task with
  | none =>
    rw [CompositeTask.Execute_panic quote task ctx now proc ha]
    exact ⟨rfl, fun ⟨args, h2⟩ => by simp at h2⟩
  | some args =>
    have hstart : ∃ e, exec.Start ctx now proc = some e := by
      unfold exec.Start
      cases proc.lookErr with
      | some e => exact ⟨e, rfl⟩
      | none => exact ⟨cerr, by simp [h]⟩
    obtain ⟨e, he⟩ := hstart
    have hlater := Context.Err_mono ctx now (now + proc.startTicks) cerr h (by omega)
    simp only [CompositeTask.Execute, ha, he, hlater, and_self, implies_true]

/-- C5, as stated, fails: with a free slot, the send case taken and a context
that is already cancelled, the call for a task whose `Options` pointer is nil
panics on the dereference and returns the `task panic` error of the deferred
function, not `context.Canceled`. -/
theorem Execute_with_done_context_counterexample :
    cancelledAt3.Err 5 = some .canceled ∧
    (newCompositeDispatch 4).Execute quotePlain cancelledAt3 (some nilOptionsTask) 5 .send
        cleanProcess
      = some (⟨some taskPanicError, false, none, 5⟩, newCompositeDispatch 4) ∧
    taskPanicError ≠ .canceled ∧
    taskPanicError.Error =
      "task panic: runtime error: invalid memory address or nil pointer dereference".toList := by
  decide

/-- C5, amended: whatever the state of the dispatcher and whichever ready case
the `select` takes, an `Execute` call whose context is already done starts no
process and leaves the dispatcher as it was.  It returns the error of the
context, `context.Canceled` or `context.DeadlineExceeded`, when the task and its
`Options` pointer are not nil, when the done case is taken, and when all slots
are taken; when the send case is taken for a nil task or a task whose `Options`
pointer is nil, it returns the `task panic` error the deferred function makes
of the nil dereference. -/
theorem Execute_with_done_context (quote : Str → Str) (dispatch : CompositeDispatch)
    (ctx : Context) (task : Option CompositeTask) (now : Nat) (pick : SelectCase)
    (proc : Process) (cerr : GoError) (h : ctx.Err now = some cerr) :
    ∃ out, dispatch.Execute quote ctx task now pick proc = some (out, dispatch) ∧
      out.started = false ∧ (cerr = .canceled ∨ cerr = .deadlineExceeded) ∧
      ((∃ t opts, task = some t ∧ t.Options = some opts) → out.err = some cerr) ∧
      (pick = .done → out.err = some cerr) ∧
      (dispatch.size ≤ dispatch.held → out.err = some cerr) ∧
      (pick = .send → dispatch.held < dispatch.size →
        (task = none ∨ ∃ t, task = some t ∧ t.Options = none) →
        out.err = some (CompositeTask.recovered runtime.nilDereference)) := by
  obtain ⟨h1, h2⟩ := CompositeTask.Execute_done quote task ctx now proc cerr h
  have hk := Context.Err_kind ctx now cerr h
  unfold CompositeDispatch.Execute
  rw [h]
  cases ha : dispatch.Acquire with
  | none =>
    have hfull : ¬ dispatch.held < dispatch.size := by
      intro hlt
      simp [CompositeDispatch.Acquire, hlt] at ha
    exact ⟨_, rfl, rfl, hk, fun _ => rfl, fun _ => rfl, fun _ => rfl,
      fun _ hlt => absurd hlt hfull⟩
  | some taken =>
    have hfree : dispatch.held < dispatch.size := by
      by_contra hn
      simp [CompositeDispatch.Acquire, hn] at ha
    cases pick with
    | done =>
      exact ⟨_, rfl, rfl, hk, fun _ => rfl, fun _ => rfl, fun _ => rfl,
        fun hp => by simp at hp⟩
    | send =>
      have hrel : taken.Release = some dispatch := by
        unfold CompositeDispatch.Acquire at ha
        split_ifs at ha
        simp only [Option.some.injEq] at ha
        subst ha
        simp [CompositeDispatch.Release]
      refine ⟨CompositeTask.Execute quote task ctx now proc,
        by simp only [hrel, Option.map_some'], h1, hk, ?_, fun hp => by simp at hp,
        fun hle => absurd hfree (by omega), ?_⟩
      · rintro ⟨t, opts, ht, ho⟩
        subst ht
        exact h2 (CompositeTask.args_of_options t opts ho)
      · intro _ _ hnil
        rw [CompositeTask.Execute_panic quote task ctx now proc
          ((CompositeTask.args_eq_none task).mpr hnil)]

/-- C5, at a free dispatcher of capacity 4 and a context cancelled before the
call, with the send case taken: the call returns `context.Canceled`, no process
is started and the dispatcher is free again. -/
theorem Execute_with_done_context_witness :
    (newCompositeDispatch 4).Execute quotePlain cancelledAt3 (some extremeTask) 5 .send
        cleanProcess
      = some (⟨some .canceled, false, CompositeTask.args (some extremeTask), 5⟩,
          newCompositeDispatch 4) ∧
    ∃ out, (newCompositeDispatch 4).Execute quotePlain cancelledAt3 (some extremeTask) 5 .send
        cleanProcess = some (out, newCompositeDispatch 4) ∧
      out.started = false ∧
      (GoError.canceled = .canceled ∨ GoError.canceled = .deadlineExceeded) ∧
      ((∃ t opts, some extremeTask = some t ∧ t.Options = some opts) →
        out.err = some .canceled) ∧
      (SelectCase.send = .done → out.err = some .canceled) ∧
      ((newCompositeDispatch 4).size ≤ (newCompositeDispatch 4).held →
        out.err = some .canceled) ∧
      (SelectCase.send = .send → (newCompositeDispatch 4).held < (newCompositeDispatch 4).size →
        (some extremeTask = none ∨ ∃ t, some extremeTask = some t ∧ t.Options = none) →
        out.err = some (CompositeTask.recovered runtime.nilDereference)) :=
  ⟨by decide,
   Execute_with_done_context quotePlain (newCompositeDispatch 4) cancelledAt3 (some extremeTask)
    5 .send cleanProcess .canceled (by decide)⟩

/-- C6, as stated, fails: for a task whose `Options` pointer is nil no process
is started, and the result is the `task panic` error of the deferred function.
Under a context that is already cancelled, where `Start` would fail, it is not
the error of the context; under a context that is never done it is neither nil
nor a `task failed to start` error. -/
theorem Execute_result_counterexample :
    cancelledAt3.Err 5 = some .canceled ∧
    exec.Start cancelledAt3 5 cleanProcess = some .canceled ∧
    CompositeTask.Execute quotePlain (some nilOptionsTask) cancelledAt3 5 cleanProcess
      = ⟨some taskPanicError, false, none, 5⟩ ∧
    taskPanicError ≠ .canceled ∧
    CompositeTask.Execute quotePlain (some nilOptionsTask) ⟨none, false⟩ 0 cleanProcess
      = ⟨some taskPanicError, false, none, 0⟩ ∧
    ∀ cause, taskPanicError
      ≠ .wrapError ("task failed to start: ".toList ++ GoError.Error cause) cause := by
  refine ⟨by decide, by decide, by decide, by decide, by decide, ?_⟩
  intro cause hc
  have h5 := congrArg (fun e => (GoError.Error e).get? 5) hc
  simp [taskPanicError, GoError.Error] at h5

/-- C6, amended: the result of `CompositeTask.Execute`.  For a task that is not
nil and whose `Options` pointer is not nil: if the process fails to start, it is
the error of the context when the context is done and otherwise a `task failed
to start` error wrapping the cause; if the process starts and `Wait` reports a
failure, it is the error of the context when the context is done and otherwise
a `task failed` error carrying the quoted, trimmed output and wrapping the exit
error; if the process exits cleanly, it is the error state of the context.  For
a nil task or a nil `Options` pointer no process is started and the result is
the `task panic` error the deferred function makes of the nil dereference.  So
the result is nil only when the process started, exited cleanly and the context
has no error. -/
theorem Execute_result (quote : Str → Str) (task : Option CompositeTask) (ctx : Context)
    (now : Nat) (proc : Process) :
    ((∃ t opts, task = some t ∧ t.Options = some opts) →
      (∀ cause, exec.Start ctx now proc = some cause →
        (CompositeTask.Execute quote task ctx now proc).started = false ∧
        (∀ cerr, ctx.Err (now + proc.startTicks) = some cerr →
          (CompositeTask.Execute quote task ctx now proc).err = some cerr) ∧
        (ctx.Err (now + proc.startTicks) = none →
          (CompositeTask.Execute quote task ctx now proc).err =
            some (.wrapError ("task failed to start: ".toList ++ cause.Error) cause))) ∧
      (exec.Start ctx now proc = none → ∀ werr, proc.waitErr = some werr →
        (CompositeTask.Execute quote task ctx now proc).started = true ∧
        (∀ cerr, ctx.Err (now + proc.startTicks + proc.waitTicks) = some cerr →
          (CompositeTask.Execute quote task ctx now proc).err = some cerr) ∧
        (ctx.Err (now + proc.startTicks + proc.waitTicks) = none →
          (CompositeTask.Execute quote task ctx now proc).err =
            some (.wrapError ("task failed: ".toList ++ quote (strings.TrimSpace proc.output)
              ++ ", ".toList ++ werr.Error) werr))) ∧
      (exec.Start ctx now proc = none → proc.waitErr = none →
        (CompositeTask.Execute quote task ctx now proc).started = true ∧
        (CompositeTask.Execute quote task ctx now proc).err
          = ctx.Err (now + proc.startTicks + proc.waitTicks))) ∧
    ((task = none ∨ ∃ t, task = some t ∧ t.Options = none) →
      (CompositeTask.Execute quote task ctx now proc).started = false ∧
      (CompositeTask.Execute quote task ctx now proc).err
        = some (.wrapError
            ("task panic: runtime error: invalid memory address or nil pointer dereference".toList)
            (.errorString
              "runtime error: invalid memory address or nil pointer dereference".toList))) ∧
    ((CompositeTask.Execute quote task ctx now proc).err = none →
      (∃ t opts, task = some t ∧ t.Options = some opts) ∧
      (CompositeTask.Execute quote task ctx now proc).started = true ∧
      exec.Start ctx now proc = none ∧ proc.waitErr = none ∧
      ctx.Err (CompositeTask.Execute quote task ctx now proc).finishedAt = none) := by
  refine ⟨?_, ?_, ?_⟩
  · rintro ⟨t, opts, ht, ho⟩
    subst ht
    obtain ⟨args, ha⟩ := CompositeTask.args_of_options t opts ho
    refine ⟨?_, ?_, ?_⟩
    · intro cause hs
      refine ⟨?_, ?_, ?_⟩
      · simp only [CompositeTask.Execute, ha, hs]
        split <;> rfl
      · intro cerr hc
        simp only [CompositeTask.Execute, ha, hs, hc]
      · intro hc
        simp only [CompositeTask.Execute, ha, hs, hc]
    · intro hs werr hw
      refine ⟨?_, ?_, ?_⟩
      · simp only [CompositeTask.Execute, ha, hs, hw]
        split <;> rfl
      · intro cerr hc
        simp only [CompositeTask.Execute, ha, hs, hw, hc]
      · intro hc
        simp only [CompositeTask.Execute, ha, hs, hw, hc]
    · intro hs hw
      simp only [CompositeTask.Execute, ha, hs, hw, and_self]
  · intro hnil
    rw [CompositeTask.Execute_panic quote task ctx now proc
      ((CompositeTask.args_eq_none task).mpr hnil)]
    exact ⟨rfl, rfl⟩
  · intro hnil
    cases ha : CompositeTask.args task with
    | none =>
      rw [CompositeTask.Execute_panic quote task ctx now proc ha] at hnil
      simp at hnil
    | some args =>
      have hopts : ∃ t opts, task = some t ∧ t.Options = some opts := by
        cases task with
        | none => simp [CompositeTask.args] at ha
        | some t =>
          cases ho : t.Options with
          | none => simp [CompositeTask.args, ho] at ha
          | some opts => exact ⟨t, opts, rfl, ho⟩
      refine ⟨hopts, ?_⟩
      cases hs : exec.Start ctx now proc with
      | some cause =>
        simp only [CompositeTask.Execute, ha, hs] at hnil
        split at hnil <;> simp at hnil
      | none =>
        cases hw : proc.waitErr with
        | some werr =>
          simp only [CompositeTask.Execute, ha, hs, hw] at hnil
          split at hnil <;> simp at hnil
        | none =>
          simp only [CompositeTask.Execute, ha, hs, hw] at hnil ⊢
          exact ⟨trivial, trivial, trivial, hnil⟩

/-- C6, at four runs of a task with options.  The executable cannot be started
under a context that is never done: a `task failed to start` error.  The
context is cancelled before `Start`, which then starts nothing:
`context.Canceled`.  The process exits with status 1 under a context that is
never done: a `task failed` error with the quoted, trimmed output.  The same
under a context cancelled meanwhile: `context.Canceled`. -/
theorem Execute_result_witness :
    exec.Start ⟨none, false⟩ 0 missingProcess
      = some (.errorString "fork/exec /app/bin/gifspin-core: no such file or directory".toList) ∧
    (CompositeTask.Execute quotePlain (some extremeTask) ⟨none, false⟩ 0 missingProcess).err =
      some (.wrapError
        ("task failed to start: fork/exec /app/bin/gifspin-core: no such file or directory".toList)
        (.errorString "fork/exec /app/bin/gifspin-core: no such file or directory".toList)) ∧
    exec.Start cancelledAt3 5 cleanProcess = some .canceled ∧
    (CompositeTask.Execute quotePlain (some extremeTask) cancelledAt3 5 cleanProcess).err
      = some .canceled ∧
    exec.Start cancelledAt3 5 unresolvedProcess
      = some (.errorString "exec: no command".toList) ∧
    (CompositeTask.Execute quotePlain (some extremeTask) ⟨none, false⟩ 0 failingProcess).err =
      some (.wrapError "task failed: \x22bad frame\x22, exit status 1".toList
        (.errorString "exit status 1".toList)) ∧
    (CompositeTask.Execute quotePlain (some extremeTask) cancelledAt3 0 failingProcess).err
      = some .canceled :=
  ⟨by decide,
   ((((Execute_result quotePlain (some extremeTask) ⟨none, false⟩ 0 missingProcess).1
      ⟨extremeTask, extremeOptions, rfl, rfl⟩).1
      (.errorString "fork/exec /app/bin/gifspin-core: no such file or directory".toList)
      (by decide)).2.2 (by decide)).trans (by decide),
   by decide,
   (((Execute_result quotePlain (some extremeTask) cancelledAt3 5 cleanProcess).1
      ⟨extremeTask, extremeOptions, rfl, rfl⟩).1 .canceled (by decide)).2.1 .canceled
      (by decide),
   by decide,
   ((((Execute_result quotePlain (some extremeTask) ⟨none, false⟩ 0 failingProcess).1
      ⟨extremeTask, extremeOptions, rfl, rfl⟩).2.1 (by decide)
      (.errorString "exit status 1".toList) (by decide)).2.2 (by decide)).trans (by decide),
   (((Execute_result quotePlain (some extremeTask) cancelledAt3 0 failingProcess).1
      ⟨extremeTask, extremeOptions, rfl, rfl⟩).2.1 (by decide)
      (.errorString "exit status 1".toList) (by decide)).2.1 .canceled (by decide)⟩

/-! ## Identifiers -/

theorem nanoid_char_spec (g : Nat) (h : g < 32) :
    nanoidAlphabet.getD g '=' ∈ nanoidAlphabet ∧ nanoidAlphabet.getD g '=' ≠ '/' ∧
      nanoidAlphabet.getD g '=' ≠ '.' ∧
      (if (nanoidAlphabet.getD g '=').toNat < 97 then (nanoidAlphabet.getD g '=').toNat - 24
        else (nanoidAlphabet.getD g '=').toNat - 97) = g := by
  interval_cases g <;> decide

theorem nanoid_char_inj (g k : Nat) (hg : g < 32) (hk : k < 32)
    (h : nanoidAlphabet.getD g '=' = nanoidAlphabet.getD k '=') : g = k := by
  have h1 := (nanoid_char_spec g hg).2.2.2
  have h2 := (nanoid_char_spec k hk).2.2.2
  rw [h] at h1
  omega

theorem base32.chars_inj (v w : Nat) (hv : v < 2 ^ 40) (hw : w < 2 ^ 40)
    (h : (base32.groups v).map (fun g => nanoidAlphabet.getD g '=')
        = (base32.groups w).map (fun g => nanoidAlphabet.getD g '=')) : v = w := by
  simp only [base32.groups, List.map_cons, List.map_nil, List.cons.injEq, and_true] at h
  obtain ⟨e0, e1, e2, e3, e4, e5, e6, e7⟩ := h
  have f0 := nanoid_char_inj _ _ (Nat.mod_lt _ (by decide)) (Nat.mod_lt _ (by decide)) e0
  have f1 := nanoid_char_inj _ _ (Nat.mod_lt _ (by decide)) (Nat.mod_lt _ (by decide)) e1
  have f2 := nanoid_char_inj _ _ (Nat.mod_lt _ (by decide)) (Nat.mod_lt _ (by decide)) e2
  have f3 := nanoid_char_inj _ _ (Nat.mod_lt _ (by decide)) (Nat.mod_lt _ (by decide)) e3
  have f4 := nanoid_char_inj _ _ (Nat.mod_lt _ (by decide)) (Nat.mod_lt _ (by decide)) e4
  have f5 := nanoid_char_inj _ _ (Nat.mod_lt _ (by decide)) (Nat.mod_lt _ (by decide)) e5
  have f6 := nanoid_char_inj _ _ (Nat.mod_lt _ (by decide)) (Nat.mod_lt _ (by decide)) e6
  have f7 := nanoid_char_inj _ _ (Nat.mod_lt _ (by decide)) (Nat.mod_lt _ (by decide)) e7
  clear e0 e1 e2 e3 e4 e5 e6 e7
  omega

theorem base32.quantum_lt (a0 a1 a2 a3 a4 : Nat)
    (ha0 : a0 < 256) (ha1 : a1 < 256) (ha2 : a2 < 256) (ha3 : a3 < 256) (ha4 : a4 < 256) :
    base32.quantum [a0, a1, a2, a3, a4] < 2 ^ 40 := by
  simp only [base32.quantum, List.getD_cons_zero, List.getD_cons_succ]
  omega

theorem base32.quantum_inj (a0 a1 a2 a3 a4 c0 c1 c2 c3 c4 : Nat)
    (ha1 : a1 < 256) (ha2 : a2 < 256) (ha3 : a3 < 256) (ha4 : a4 < 256)
    (hc1 : c1 < 256) (hc2 : c2 < 256) (hc3 : c3 < 256) (hc4 : c4 < 256)
    (h : base32.quantum [a0, a1, a2, a3, a4] = base32.quantum [c0, c1, c2, c3, c4]) :
    a0 = c0 ∧ a1 = c1 ∧ a2 = c2 ∧ a3 = c3 ∧ a4 = c4 := by
  simp only [base32.quantum, List.getD_cons_zero, List.getD_cons_succ] at h
  omega

theorem list_length_ten (b : List Nat) (h : b.length = 10) :
    ∃ a0 a1 a2 a3 a4 a5 a6 a7 a8 a9, b = [a0, a1, a2, a3, a4, a5, a6, a7, a8, a9] := by
  match b, h with
  | [a0, a1, a2, a3, a4, a5, a6, a7, a8, a9], _ => exact ⟨_, _, _, _, _, _, _, _, _, _, rfl⟩

theorem nanoid_ten (a0 a1 a2 a3 a4 a5 a6 a7 a8 a9 : Nat) :
    nanoid [a0, a1, a2, a3, a4, a5, a6, a7, a8, a9] =
      (base32.groups (base32.quantum [a0, a1, a2, a3, a4])).map
          (fun g => nanoidAlphabet.getD g '=')
        ++ (base32.groups (base32.quantum [a5, a6, a7, a8, a9])).map
          (fun g => nanoidAlphabet.getD g '=') := by
  simp [nanoid, base32.EncodeToString]

theorem nanoid_inj (b1 b2 : List Nat) (h1 : b1.length = 10) (h2 : b2.length = 10)
    (hb1 : ∀ x ∈ b1, x < 256) (hb2 : ∀ x ∈ b2, x < 256) (h : nanoid b1 = nanoid b2) :
    b1 = b2 := by
  obtain ⟨a0, a1, a2, a3, a4, a5, a6, a7, a8, a9, rfl⟩ := list_length_ten b1 h1
  obtain ⟨c0, c1, c2, c3, c4, c5, c6, c7, c8, c9, rfl⟩ := list_length_ten b2 h2
  simp only [List.mem_cons, List.mem_singleton, forall_eq_or_imp, forall_eq] at hb1 hb2
  obtain ⟨p0, p1, p2, p3, p4, p5, p6, p7, p8, p9, -⟩ := hb1
  obtain ⟨q0, q1, q2, q3, q4, q5, q6, q7, q8, q9, -⟩ := hb2
  rw [nanoid_ten, nanoid_ten] at h
  have hlen : ((base32.groups (base32.quantum [a0, a1, a2, a3, a4])).map
      (fun g => nanoidAlphabet.getD g '=')).length
      = ((base32.groups (base32.quantum [c0, c1, c2, c3, c4])).map
      (fun g => nanoidAlphabet.getD g '=')).length := by
    simp [base32.groups]
  obtain ⟨hA, hB⟩ := List.append_inj h hlen
  have vA := base32.chars_inj _ _ (base32.quantum_lt _ _ _ _ _ p0 p1 p2 p3 p4)
    (base32.quantum_lt _ _ _ _ _ q0 q1 q2 q3 q4) hA
  have vB := base32.chars_inj _ _ (base32.quantum_lt _ _ _ _ _ p5 p6 p7 p8 p9)
    (base32.quantum_lt _ _ _ _ _ q5 q6 q7 q8 q9) hB
  obtain ⟨r0, r1, r2, r3, r4⟩ := base32.quantum_inj _ _ _ _ _ _ _ _ _ _ p1 p2 p3 p4 q1 q2 q3 q4 vA
  obtain ⟨r5, r6, r7, r8, r9⟩ := base32.quantum_inj _ _ _ _ _ _ _ _ _ _ p6 p7 p8 p9 q6 q7 q8 q9 vB
  subst r0 r1 r2 r3 r4 r5 r6 r7 r8 r9
  rfl

theorem nanoid_shape (b : List Nat) (h : b.length = 10) :
    (nanoid b).length = 16 ∧ ∀ c ∈ nanoid b, c ∈ nanoidAlphabet ∧ c ≠ '/' ∧ c ≠ '.' := by
  obtain ⟨a0, a1, a2, a3, a4, a5, a6, a7, a8, a9, rfl⟩ := list_length_ten b h
  rw [nanoid_ten]
  constructor
  · simp [base32.groups]
  · intro c hc
    simp only [List.mem_append, List.mem_map] at hc
    have key : ∀ v g, g ∈ base32.groups v → g < 32 := by
      intro v g hg
      simp only [base32.groups, List.mem_cons, List.mem_singleton, List.mem_nil_iff,
        or_false] at hg
      omega
    rcases hc with ⟨g, hg, rfl⟩ | ⟨g, hg, rfl⟩
    · have := nanoid_char_spec g (key _ g hg)
      exact ⟨this.1, this.2.1, this.2.2.1⟩
    · have := nanoid_char_spec g (key _ g hg)
      exact ⟨this.1, this.2.1, this.2.2.1⟩

/-! ## Paths -/

theorem dropWhile_append_of_all (p : Char → Bool) (l m : Str) (h : ∀ x ∈ l, p x = true) :
    (l ++ m).dropWhile p = m.dropWhile p := by
  induction l with
  | nil => rfl
  | cons x xs ih =>
    have hx := h x (List.mem_cons_self _ _)
    simp only [List.cons_append, List.dropWhile_cons, hx, if_true]
    exact ih (fun y hy => h y (List.mem_cons_of_mem _ hy))

theorem takeWhile_append_stop (p : Char → Bool) (l m : Str) (c : Char)
    (h : ∀ x ∈ l, p x = true) (hc : p c = false) : (l ++ c :: m).takeWhile p = l := by
  induction l with
  | nil => simp [List.takeWhile_cons, hc]
  | cons x xs ih =>
    have hx := h x (List.mem_cons_self _ _)
    simp only [List.cons_append, List.takeWhile_cons, hx, if_true]
    rw [ih (fun y hy => h y (List.mem_cons_of_mem _ hy))]

theorem path.Base_of_last (pre name : Str) (hne : name ≠ []) (hs : '/' ∉ name) :
    path.Base (pre ++ '/' :: name) = name := by
  have hrev : (pre ++ '/' :: name).reverse = name.reverse ++ '/' :: pre.reverse := by simp
  have hall : ∀ x ∈ name.reverse, (x != '/') = true := by
    intro x hx
    have : x ≠ '/' := fun h => hs (h ▸ List.mem_reverse.mp hx)
    simpa using this
  obtain ⟨c, cs, hcs⟩ : ∃ c cs, name.reverse = c :: cs := by
    cases hr : name.reverse with
    | nil => exact absurd (List.reverse_eq_nil_iff.mp hr) hne
    | cons c cs => exact ⟨c, cs, rfl⟩
  have hc : (c == '/') = false := by
    have := hall c (by rw [hcs]; exact List.mem_cons_self _ _)
    simpa using this
  unfold path.Base
  rw [if_neg (by simp)]
  simp only [hrev, List.reverse_reverse]
  have hdrop : (name.reverse ++ '/' :: pre.reverse).dropWhile (fun c => c == '/')
      = name.reverse ++ '/' :: pre.reverse := by
    rw [hcs]
    simp only [List.cons_append, List.dropWhile_cons, hc]
    rfl
  rw [hdrop, takeWhile_append_stop _ _ _ _ hall (by simp), List.reverse_reverse, if_neg hne]

theorem path.Base_shape (p : Str) :
    path.Base p = ['/'] ∨ (path.Base p ≠ [] ∧ '/' ∉ path.Base p) := by
  unfold path.Base
  split
  · right
    decide
  · dsimp only
    split
    · left
      rfl
    · rename_i hne
      right
      refine ⟨hne, ?_⟩
      intro hmem
      have := List.mem_takeWhile_imp (List.mem_reverse.mp hmem)
      simp at this

theorem filepath.elements_ne_nil (p : Str) : filepath.elements p ≠ [] := by
  cases p with
  | nil => simp [filepath.elements]
  | cons c cs =>
    unfold filepath.elements
    split
    · simp
    · split <;> simp

theorem filepath.elements_append (a b : Str) :
    filepath.elements (a ++ '/' :: b) = filepath.elements a ++ filepath.elements b := by
  induction a with
  | nil => simp [filepath.elements]
  | cons c cs ih =>
    simp only [List.cons_append, filepath.elements]
    split
    · simp [ih]
    · have ih2 : filepath.elements (cs.append ('/' :: b))
          = filepath.elements cs ++ filepath.elements b := ih
      rw [ih2]
      cases he : filepath.elements cs with
      | nil => exact absurd he (filepath.elements_ne_nil cs)
      | cons e es => simp

theorem filepath.elements_single (e : Str) (h : '/' ∉ e) : filepath.elements e = [e] := by
  induction e with
  | nil => rfl
  | cons c cs ih =>
    have hc : c ≠ '/' := fun hc => h (hc ▸ List.mem_cons_self _ _)
    have hcs : '/' ∉ cs := fun hm => h (List.mem_cons_of_mem _ hm)
    simp only [filepath.elements, if_neg hc, ih hcs]

theorem filepath.elements_mem (p : Str) : ∀ e ∈ filepath.elements p, '/' ∉ e := by
  induction p with
  | nil => simp [filepath.elements]
  | cons c cs ih =>
    unfold filepath.elements
    split
    · intro e he
      rcases List.mem_cons.mp he with h | h
      · subst h
        simp
      · exact ih e h
    · rename_i hc
      cases hcs : filepath.elements cs with
      | nil => exact absurd hcs (filepath.elements_ne_nil cs)
      | cons x xs =>
        rw [hcs] at ih
        intro e he
        rcases List.mem_cons.mp he with h | h
        · subst h
          intro hm
          rcases List.mem_cons.mp hm with h1 | h1
          · exact hc h1.symm
          · exact ih x (List.mem_cons_self _ _) h1
        · exact ih e (List.mem_cons_of_mem _ h)

theorem intercalate_cons_cons (x y : Str) (l : List Str) :
    ['/'].intercalate (x :: y :: l) = x ++ '/' :: ['/'].intercalate (y :: l) := by
  simp [List.intercalate, List.intersperse]

theorem intercalate_append_single (l : List Str) (x : Str) (hl : l ≠ []) :
    ['/'].intercalate (l ++ [x]) = ['/'].intercalate l ++ '/' :: x := by
  induction l with
  | nil => exact absurd rfl hl
  | cons a as ih =>
    cases as with
    | nil => simp [List.intercalate, List.intersperse]
    | cons b bs =>
      have := ih (by simp)
      simp only [List.cons_append] at this ⊢
      rw [intercalate_cons_cons, this, intercalate_cons_cons]
      simp

theorem filepath.elements_intercalate (l : List Str) (hl : l ≠ []) (h : ∀ e ∈ l, '/' ∉ e) :
    filepath.elements (['/'].intercalate l) = l := by
  induction l with
  | nil => exact absurd rfl hl
  | cons a as ih =>
    cases as with
    | nil =>
      have : ['/'].intercalate [a] = a := by simp [List.intercalate, List.intersperse]
      rw [this]
      exact filepath.elements_single a (h a (List.mem_cons_self _ _))
    | cons b bs =>
      rw [intercalate_cons_cons, filepath.elements_append,
        filepath.elements_single a (h a (List.mem_cons_self _ _)),
        ih (by simp) (fun e he => h e (List.mem_cons_of_mem _ he))]
      rfl

theorem filepath.cleanStep_written (rooted : Bool) (out : List Str) (e : Str) (he : '/' ∉ e)
    (h : filepath.Written rooted out) : filepath.Written rooted (filepath.cleanStep rooted out e) := by
  obtain ⟨hf, hm⟩ := h
  unfold filepath.cleanStep
  split
  · exact ⟨hf, hm⟩
  split
  · exact ⟨hf, hm⟩
  rename_i hnil hdot
  split
  · rename_i hdd
    subst hdd
    cases out with
    | nil =>
      cases rooted with
      | true => exact ⟨rfl, by simp⟩
      | false => exact ⟨rfl, by simp⟩
    | cons top below =>
      dsimp only
      split
      · rename_i htop
        refine ⟨?_, ?_⟩
        · rw [List.reverse_cons, List.foldl_append, hf]
          simp [filepath.cleanStep, htop]
        · intro x hx
          rcases List.mem_cons.mp hx with h1 | h1
          · subst h1
            simp
          · exact hm x h1
      · rename_i htop
        have htm := hm top (List.mem_cons_self _ _)
        refine ⟨?_, fun x hx => hm x (List.mem_cons_of_mem _ hx)⟩
        rw [List.reverse_cons, List.foldl_append] at hf
        simp only [List.foldl_cons, List.foldl_nil, filepath.cleanStep, if_neg htm.1,
          if_neg htm.2.1, if_neg htop] at hf
        exact (List.cons.inj hf).2
  · rename_i hdd
    refine ⟨?_, ?_⟩
    · rw [List.reverse_cons, List.foldl_append, hf]
      simp [filepath.cleanStep, hnil, hdot, hdd]
    · intro x hx
      rcases List.mem_cons.mp hx with h1 | h1
      · subst h1
        exact ⟨hnil, hdot, he⟩
      · exact hm x h1

theorem filepath.foldl_written (rooted : Bool) (es : List Str) (out : List Str)
    (he : ∀ e ∈ es, '/' ∉ e) (h : filepath.Written rooted out) :
    filepath.Written rooted (es.foldl (filepath.cleanStep rooted) out) := by
  induction es generalizing out with
  | nil => exact h
  | cons e es ih =>
    exact ih _ (fun x hx => he x (List.mem_cons_of_mem _ hx))
      (filepath.cleanStep_written rooted out e (he e (List.mem_cons_self _ _)) h)

theorem filepath.render_cons (rooted : Bool) (out : List Str) (name : Str) (hne : name ≠ []) :
    filepath.render rooted (name :: out) = filepath.dirPart rooted out ++ name := by
  unfold filepath.render filepath.dirPart
  cases out with
  | nil =>
    have : ['/'].intercalate [name] = name := by simp [List.intercalate, List.intersperse]
    simp only [List.reverse_cons, List.reverse_nil, List.nil_append, this]
    cases rooted with
    | true => rfl
    | false => simp [hne]
  | cons top below =>
    have hl : (top :: below).reverse ≠ [] := by simp
    rw [List.reverse_cons name, intercalate_append_single _ _ hl]
    cases rooted with
    | true => simp
    | false => simp

theorem filepath.written_nil (rooted : Bool) : filepath.Written rooted [] :=
  ⟨rfl, by simp⟩

theorem filepath.cleanStep_name (rooted : Bool) (out : List Str) (name : Str)
    (h1 : name ≠ []) (h2 : name ≠ ['.']) (h3 : name ≠ ['.', '.']) :
    filepath.cleanStep rooted out name = name :: out := by
  simp only [filepath.cleanStep, if_neg h1, if_neg h2, if_neg h3]

theorem filepath.Clean_dirPart (rooted : Bool) (out : List Str)
    (h : filepath.Written rooted out) :
    filepath.Clean (filepath.dirPart rooted out) = filepath.render rooted out := by
  obtain ⟨hf, hm⟩ := h
  cases out with
  | nil =>
    cases rooted with
    | true => decide
    | false => decide
  | cons top below =>
    have hl : (top :: below).reverse ≠ [] := by simp
    have hno : ∀ e ∈ (top :: below).reverse, '/' ∉ e :=
      fun e he => (hm e (List.mem_reverse.mp he)).2.2
    have hel := filepath.elements_intercalate _ hl hno
    have hskip : ∀ acc, filepath.cleanStep rooted acc [] = acc := by
      intro acc
      simp [filepath.cleanStep]
    cases rooted with
    | true =>
      have hP : filepath.dirPart true (top :: below)
          = '/' :: (['/'].intercalate (top :: below).reverse ++ '/' :: []) := by
        simp [filepath.dirPart]
      rw [hP]
      unfold filepath.Clean
      rw [if_neg (by simp)]
      simp only [List.head?_cons, beq_self_eq_true]
      have he : filepath.elements ('/' :: (['/'].intercalate (top :: below).reverse ++ '/' :: []))
          = [] :: ((top :: below).reverse ++ [[]]) := by
        rw [filepath.elements, if_pos rfl, filepath.elements_append, hel]
        rfl
      rw [he, List.foldl_cons, hskip, List.foldl_append, hf, List.foldl_cons, hskip,
        List.foldl_nil]
    | false =>
      have hP : filepath.dirPart false (top :: below)
          = ['/'].intercalate (top :: below).reverse ++ '/' :: [] := by
        simp [filepath.dirPart]
      rw [hP]
      have hhead : (['/'].intercalate (top :: below).reverse ++ '/' :: []).head? ≠ some '/' := by
        cases hr : (top :: below).reverse with
        | nil => exact absurd hr hl
        | cons f rest =>
          have hfm : f ∈ top :: below := List.mem_reverse.mp (by rw [hr]; exact List.mem_cons_self _ _)
          obtain ⟨hf1, -, hf3⟩ := hm f hfm
          cases f with
          | nil => exact absurd rfl hf1
          | cons c cs =>
            have hc : c ≠ '/' := fun hc => hf3 (hc ▸ List.mem_cons_self _ _)
            cases rest with
            | nil =>
              simp [List.intercalate, List.intersperse]
              exact fun h => hc h
            | cons g gs =>
              rw [intercalate_cons_cons]
              simp
              exact fun h => hc h
      unfold filepath.Clean
      rw [if_neg (by simp)]
      have hroot : ((['/'].intercalate (top :: below).reverse ++ '/' :: []).head? == some '/')
          = false := by
        simpa using hhead
      simp only [hroot]
      have he : filepath.elements (['/'].intercalate (top :: below).reverse ++ '/' :: [])
          = (top :: below).reverse ++ [[]] := by
        rw [filepath.elements_append, hel]
        rfl
      rw [he, List.foldl_append, hf, List.foldl_cons, hskip, List.foldl_nil]

theorem filepath.Join_name (dir : Str) :
    ∃ P, filepath.Clean P = filepath.Clean dir ∧ (P = [] ∨ ∃ Q, P = Q ++ ['/']) ∧
      ∀ name, name ≠ [] → name ≠ ['.'] → name ≠ ['.', '.'] → '/' ∉ name →
        filepath.Join dir name = P ++ name := by
  by_cases hdir : dir = []
  · subst hdir
    refine ⟨[], rfl, Or.inl rfl, ?_⟩
    intro name h1 h2 h3 h4
    have hroot : (name.head? == some '/') = false := by
      cases name with
      | nil => exact absurd rfl h1
      | cons c cs =>
        have hc : c ≠ '/' := fun hc => h4 (hc ▸ List.mem_cons_self _ _)
        simpa using hc
    simp only [filepath.Join, ne_eq, not_true_eq_false, if_false, h1, not_false_eq_true, if_true,
      filepath.Clean, hroot, filepath.elements_single name h4, List.foldl_cons, List.foldl_nil,
      filepath.cleanStep_name _ _ name h1 h2 h3]
    rw [filepath.render_cons _ _ _ h1]
    rfl
  · have hw := filepath.foldl_written (dir.head? == some '/') (filepath.elements dir) []
      (filepath.elements_mem dir) (filepath.written_nil _)
    refine ⟨filepath.dirPart (dir.head? == some '/')
      ((filepath.elements dir).foldl (filepath.cleanStep (dir.head? == some '/')) []), ?_, ?_, ?_⟩
    · rw [filepath.Clean_dirPart _ _ hw]
      simp only [filepath.Clean, if_neg hdir]
    · unfold filepath.dirPart
      split
      · split
        · exact Or.inr ⟨[], rfl⟩
        · exact Or.inl rfl
      · exact Or.inr ⟨_, rfl⟩
    · intro name h1 h2 h3 h4
      have hhead : (dir ++ '/' :: name).head? = dir.head? := by
        cases dir with
        | nil => exact absurd rfl hdir
        | cons c cs => rfl
      simp only [filepath.Join, ne_eq, hdir, not_false_eq_true, if_true, filepath.Clean,
        List.append_eq_nil, false_and, if_false, hhead, filepath.elements_append,
        filepath.elements_single name h4, List.foldl_append, List.foldl_cons, List.foldl_nil,
        filepath.cleanStep_name _ _ name h1 h2 h3]
      exact filepath.render_cons _ _ _ h1

theorem filepath.Dir_append_name (P name : Str) (hP : P = [] ∨ ∃ Q, P = Q ++ ['/'])
    (hs : '/' ∉ name) : filepath.Dir (P ++ name) = filepath.Clean P := by
  unfold filepath.Dir
  have hall : ∀ x ∈ name.reverse, (x != '/') = true := by
    intro x hx
    have : x ≠ '/' := fun h => hs (h ▸ List.mem_reverse.mp hx)
    simpa using this
  rw [List.reverse_append, dropWhile_append_of_all _ _ _ hall]
  rcases hP with h | ⟨Q, h⟩
  · subst h
    rfl
  · subst h
    simp

theorem path.extLoop_spec (rest acc : Str) (hd : '.' ∉ acc) :
    (path.extLoop rest acc = [] ∧ ('/' ∉ rest → '.' ∉ rest)) ∨
      ∃ pre e, rest.reverse ++ acc = pre ++ '.' :: e ∧ path.extLoop rest acc = '.' :: e ∧
        '.' ∉ e := by
  induction rest generalizing acc with
  | nil => exact Or.inl ⟨rfl, fun _ => by simp⟩
  | cons c cs ih =>
    unfold path.extLoop
    split
    · rename_i hc
      exact Or.inl ⟨rfl, fun h => absurd (hc ▸ List.mem_cons_self _ _) h⟩
    · split
      · rename_i hc
        subst hc
        exact Or.inr ⟨cs.reverse, acc, by simp, rfl, hd⟩
      · rename_i hs hc
        have hd2 : '.' ∉ c :: acc := by
          intro hm
          rcases List.mem_cons.mp hm with h | h
          · exact hc h.symm
          · exact hd h
        rcases ih (c :: acc) hd2 with ⟨h1, h2⟩ | ⟨pre, e, h1, h2, h3⟩
        · refine Or.inl ⟨h1, fun hno hm => ?_⟩
          rcases List.mem_cons.mp hm with h | h
          · exact hc h.symm
          · exact h2 (fun hx => hno (List.mem_cons_of_mem _ hx)) h
        · exact Or.inr ⟨pre, e, by simpa using h1, h2, h3⟩

theorem path.Ext_spec (b : Str) :
    (path.Ext b = [] ∧ ('/' ∉ b → '.' ∉ b)) ∨
      ∃ pre e, b = pre ++ '.' :: e ∧ path.Ext b = '.' :: e ∧ '.' ∉ e := by
  rcases path.extLoop_spec b.reverse [] (by simp) with ⟨h1, h2⟩ | ⟨pre, e, h1, h2, h3⟩
  · exact Or.inl ⟨h1, fun hno hm => h2 (fun hx => hno (List.mem_reverse.mp hx))
      (List.mem_reverse.mpr hm)⟩
  · exact Or.inr ⟨pre, e, by simpa using h1, h2, h3⟩

theorem path.stem_append_ext (b : Str) :
    b.take (b.length - (path.Ext b).length) ++ path.Ext b = b := by
  rcases path.Ext_spec b with ⟨h1, -⟩ | ⟨pre, e, h1, h2, -⟩
  · simp [h1]
  · rw [h2]
    conv_lhs => rw [h1]
    conv_rhs => rw [h1]
    have hlen : (pre ++ '.' :: e).length - ('.' :: e).length = pre.length := by
      simp
    rw [hlen, List.take_left']
    rfl

theorem generateTokenOutput_eq (t r : Str) :
    generateTokenOutput t r = "/temp/".toList
      ++ (path.Base t).take ((path.Base t).length - (path.Ext (path.Base t)).length)
      ++ "-".toList ++ r ++ ".gif".toList := rfl

theorem path.Base_generateTokenOutput (t r : Str) (hr : '/' ∉ r) :
    (path.Base t ≠ ['/'] →
      path.Base (generateTokenOutput t r) =
        (path.Base t).take ((path.Base t).length - (path.Ext (path.Base t)).length)
          ++ "-".toList ++ r ++ ".gif".toList) ∧
    (path.Base t = ['/'] →
      path.Base (generateTokenOutput t r) = "-".toList ++ r ++ ".gif".toList) := by
  have hname : ∀ s : Str, '/' ∉ s → '/' ∉ s ++ "-".toList ++ r ++ ".gif".toList := by
    intro s hs hm
    simp only [List.mem_append] at hm
    rcases hm with ((h | h) | h) | h
    · exact hs h
    · revert h
      decide
    · exact hr h
    · revert h
      decide
  constructor
  · intro hb
    have hno : '/' ∉ path.Base t := by
      rcases path.Base_shape t with h | h
      · exact absurd h hb
      · exact h.2
    have hs : '/' ∉ (path.Base t).take ((path.Base t).length - (path.Ext (path.Base t)).length) :=
      fun hm => hno (List.mem_of_mem_take hm)
    have := path.Base_of_last "/temp".toList _ (by simp) (hname _ hs)
    rw [generateTokenOutput_eq]
    simpa using this
  · intro hb
    have := path.Base_of_last "/temp/".toList _ (by simp) (hname [] (by simp))
    rw [generateTokenOutput_eq, hb]
    simpa [path.Ext, path.extLoop] using this

theorem path.Base_output_name (t : Str) :
    ∃ s, '/' ∉ s ∧ ∀ r, '/' ∉ r →
      path.Base (generateTokenOutput t r) = s ++ "-".toList ++ r ++ ".gif".toList := by
  by_cases hb : path.Base t = ['/']
  · exact ⟨[], by simp, fun r hr => by
      simpa using (path.Base_generateTokenOutput t r hr).2 hb⟩
  · have hno : '/' ∉ path.Base t := by
      rcases path.Base_shape t with h | h
      · exact absurd h hb
      · exact h.2
    exact ⟨_, fun hm => hno (List.mem_of_mem_take hm), fun r hr =>
      (path.Base_generateTokenOutput t r hr).1 hb⟩

theorem output_name_ok (s r : Str) (hs : '/' ∉ s) (hr : '/' ∉ r) :
    s ++ "-".toList ++ r ++ ".gif".toList ≠ [] ∧
    s ++ "-".toList ++ r ++ ".gif".toList ≠ ['.'] ∧
    s ++ "-".toList ++ r ++ ".gif".toList ≠ ['.', '.'] ∧
    '/' ∉ s ++ "-".toList ++ r ++ ".gif".toList := by
  have hmem : '-' ∈ s ++ "-".toList ++ r ++ ".gif".toList := by simp
  refine ⟨?_, ?_, ?_, ?_⟩
  · intro h
    rw [h] at hmem
    simp at hmem
  · intro h
    rw [h] at hmem
    simp at hmem
  · intro h
    rw [h] at hmem
    simp at hmem
  · intro hm
    simp only [List.mem_append] at hm
    rcases hm with ((h | h) | h) | h
    · exact hs h
    · revert h
      decide
    · exact hr h
    · revert h
      decide

/-! ## Token and path codec -/

/-- C1: `getPathFromToken` at tokens whose last element is `..`, `.` or a
slash.  `path.Base` keeps `..`, and `filepath.Join` then resolves it: the token
`..` (which `handleSpin` accepts, as it rejects only the empty token) gives the
parent of the temp directory, and `.` and `/` give the temp directory itself; a
token such as `../../etc/passwd` is confined to the temp directory. -/
theorem getPathFromToken_leaves_temp_dir :
    path.Base "..".toList = "..".toList ∧
    getPathFromToken "/data".toList "..".toList = "/".toList ∧
    getPathFromToken "/data".toList "/temp/..".toList = "/".toList ∧
    getPathFromToken "/data/spin".toList "..".toList = "/data".toList ∧
    getPathFromToken "/data".toList ".".toList = "/data".toList ∧
    getPathFromToken "/data".toList "/".toList = "/data".toList ∧
    getPathFromToken "/data".toList "../../etc/passwd".toList = "/data/passwd".toList := by
  decide

/-- C9, as stated, fails: for the input token `/` the final path component is
`/` with no extension, the output token is `/temp/` followed by a slash and
`-<id>.gif`, and its base name is `-<id>.gif`, which does not begin with a
slash followed by a dash. -/
theorem generateTokenOutput_slash_counterexample :
    path.Base "/".toList = "/".toList ∧
    path.Ext (path.Base "/".toList) = [] ∧
    generateTokenOutput "/".toList (nanoid zeroBytes) = "/temp//-aaaaaaaaaaaaaaaa.gif".toList ∧
    path.Base (generateTokenOutput "/".toList (nanoid zeroBytes))
      = "-aaaaaaaaaaaaaaaa.gif".toList ∧
    ¬ ∃ rest, path.Base (generateTokenOutput "/".toList (nanoid zeroBytes))
      = path.Base "/".toList ++ "-".toList ++ rest := by
  refine ⟨by decide, by decide, by decide, by decide, ?_⟩
  have h : path.Base (generateTokenOutput "/".toList (nanoid zeroBytes))
      = "-aaaaaaaaaaaaaaaa.gif".toList := by decide
  have h2 : path.Base "/".toList = "/".toList := by decide
  rw [h, h2]
  rintro ⟨rest, hrest⟩
  simp at hrest

/-- C9, amended: for every input token `t` and every identifier `r` of
`nanoid`, `generateTokenOutput` returns `/temp/` + `s` + `-` + `r` + `.gif`,
where `s` is the final path component of `t` without its extension (the suffix
starting at its last dot); the output token ends in `.gif`; and, unless that
final component is `/` (a token made only of slashes), its base name is
`s` + `-` + `r` + `.gif`. -/
theorem generateTokenOutput_shape (t : Str) (b : List Nat) (hb : b.length = 10) :
    ∃ s, path.Base t = s ++ path.Ext (path.Base t) ∧
      ((path.Ext (path.Base t) = [] ∧ '.' ∉ path.Base t) ∨
        ∃ e, path.Ext (path.Base t) = '.' :: e ∧ '.' ∉ e) ∧
      generateTokenOutput t (nanoid b)
        = "/temp/".toList ++ s ++ "-".toList ++ nanoid b ++ ".gif".toList ∧
      (∃ pre, generateTokenOutput t (nanoid b) = pre ++ ".gif".toList) ∧
      (path.Base t ≠ ['/'] →
        path.Base (generateTokenOutput t (nanoid b))
          = s ++ "-".toList ++ nanoid b ++ ".gif".toList) := by
  have hr : '/' ∉ nanoid b := fun hm => ((nanoid_shape b hb).2 _ hm).2.1 rfl
  obtain ⟨hB1, -⟩ := path.Base_generateTokenOutput t (nanoid b) hr
  refine ⟨(path.Base t).take ((path.Base t).length - (path.Ext (path.Base t)).length),
    (path.stem_append_ext _).symm, ?_, rfl, ⟨_, rfl⟩, hB1⟩
  rcases path.Ext_spec (path.Base t) with ⟨h1, h2⟩ | ⟨pre, e, -, h2, h3⟩
  · left
    refine ⟨h1, ?_⟩
    rcases path.Base_shape t with h | h
    · rw [h]
      decide
    · exact h2 h.2
  · exact Or.inr ⟨e, h2, h3⟩

/-- C9, at the token `/temp/abcd.png`: the output token is
`/temp/abcd-<id>.gif` and its base name `abcd-<id>.gif`. -/
theorem generateTokenOutput_shape_witness :
    generateTokenOutput "/temp/abcd.png".toList (nanoid zeroBytes)
      = "/temp/abcd-aaaaaaaaaaaaaaaa.gif".toList ∧
    path.Base (generateTokenOutput "/temp/abcd.png".toList (nanoid zeroBytes))
      = "abcd-aaaaaaaaaaaaaaaa.gif".toList ∧
    ∃ s, path.Base "/temp/abcd.png".toList = s ++ path.Ext (path.Base "/temp/abcd.png".toList) ∧
      ((path.Ext (path.Base "/temp/abcd.png".toList) = [] ∧
          '.' ∉ path.Base "/temp/abcd.png".toList) ∨
        ∃ e, path.Ext (path.Base "/temp/abcd.png".toList) = '.' :: e ∧ '.' ∉ e) ∧
      generateTokenOutput "/temp/abcd.png".toList (nanoid zeroBytes)
        = "/temp/".toList ++ s ++ "-".toList ++ nanoid zeroBytes ++ ".gif".toList ∧
      (∃ pre, generateTokenOutput "/temp/abcd.png".toList (nanoid zeroBytes)
        = pre ++ ".gif".toList) ∧
      (path.Base "/temp/abcd.png".toList ≠ ['/'] →
        path.Base (generateTokenOutput "/temp/abcd.png".toList (nanoid zeroBytes))
          = s ++ "-".toList ++ nanoid zeroBytes ++ ".gif".toList) :=
  ⟨by decide, by decide,
   generateTokenOutput_shape "/temp/abcd.png".toList zeroBytes (by decide)⟩

/-- C8: two distinct sequences of ten bytes give two distinct identifiers of
sixteen characters of the alphabet, none of them a slash or a dot; the two
output tokens built from them for one input token are distinct, and they
resolve to two different paths, both directly in the (cleaned) temp directory. -/
theorem output_tokens_distinct (t pathTemp : Str) (b1 b2 : List Nat)
    (h1 : b1.length = 10) (h2 : b2.length = 10)
    (hb1 : ∀ x ∈ b1, x < 256) (hb2 : ∀ x ∈ b2, x < 256) (hne : b1 ≠ b2) :
    nanoid b1 ≠ nanoid b2 ∧
    ((nanoid b1).length = 16 ∧ ∀ c ∈ nanoid b1, c ∈ nanoidAlphabet ∧ c ≠ '/' ∧ c ≠ '.') ∧
    ((nanoid b2).length = 16 ∧ ∀ c ∈ nanoid b2, c ∈ nanoidAlphabet ∧ c ≠ '/' ∧ c ≠ '.') ∧
    generateTokenOutput t (nanoid b1) ≠ generateTokenOutput t (nanoid b2) ∧
    getPathFromToken pathTemp (generateTokenOutput t (nanoid b1))
      ≠ getPathFromToken pathTemp (generateTokenOutput t (nanoid b2)) ∧
    filepath.Dir (getPathFromToken pathTemp (generateTokenOutput t (nanoid b1)))
      = filepath.Clean pathTemp ∧
    filepath.Dir (getPathFromToken pathTemp (generateTokenOutput t (nanoid b2)))
      = filepath.Clean pathTemp := by
  have hid : nanoid b1 ≠ nanoid b2 := fun h => hne (nanoid_inj b1 b2 h1 h2 hb1 hb2 h)
  have hs1 := nanoid_shape b1 h1
  have hs2 := nanoid_shape b2 h2
  have hr1 : '/' ∉ nanoid b1 := fun hm => (hs1.2 _ hm).2.1 rfl
  have hr2 : '/' ∉ nanoid b2 := fun hm => (hs2.2 _ hm).2.1 rfl
  obtain ⟨s, hs, hbase⟩ := path.Base_output_name t
  obtain ⟨P, hP1, hP2, hP3⟩ := filepath.Join_name pathTemp
  obtain ⟨n1, n2, n3, n4⟩ := output_name_ok s (nanoid b1) hs hr1
  obtain ⟨m1, m2, m3, m4⟩ := output_name_ok s (nanoid b2) hs hr2
  have hp1 : getPathFromToken pathTemp (generateTokenOutput t (nanoid b1))
      = P ++ (s ++ "-".toList ++ nanoid b1 ++ ".gif".toList) := by
    unfold getPathFromToken
    rw [hbase _ hr1]
    exact hP3 _ n1 n2 n3 n4
  have hp2 : getPathFromToken pathTemp (generateTokenOutput t (nanoid b2))
      = P ++ (s ++ "-".toList ++ nanoid b2 ++ ".gif".toList) := by
    unfold getPathFromToken
    rw [hbase _ hr2]
    exact hP3 _ m1 m2 m3 m4
  refine ⟨hid, hs1, hs2, ?_, ?_, ?_, ?_⟩
  · intro h
    rw [generateTokenOutput_eq, generateTokenOutput_eq] at h
    simp only [List.append_assoc, List.append_cancel_left_eq] at h
    exact hid (List.append_cancel_right h)
  · rw [hp1, hp2]
    intro h
    simp only [List.append_assoc, List.append_cancel_left_eq] at h
    exact hid (List.append_cancel_right h)
  · rw [hp1, filepath.Dir_append_name P _ hP2 n4, hP1]
  · rw [hp2, filepath.Dir_append_name P _ hP2 m4, hP1]

/-- C8, at the token `/temp/abcd.png`, the temp directory `/data` and two byte
sequences that differ in their last byte. -/
theorem output_tokens_distinct_witness :
    getPathFromToken "/data".toList (generateTokenOutput "/temp/abcd.png".toList (nanoid zeroBytes))
      = "/data/abcd-aaaaaaaaaaaaaaaa.gif".toList ∧
    getPathFromToken "/data".toList (generateTokenOutput "/temp/abcd.png".toList (nanoid oneBytes))
      = "/data/abcd-aaaaaaaaaaaaaaab.gif".toList ∧
    getPathFromToken "/data".toList (generateTokenOutput "/temp/abcd.png".toList (nanoid zeroBytes))
      ≠ getPathFromToken "/data".toList
        (generateTokenOutput "/temp/abcd.png".toList (nanoid oneBytes)) :=
  ⟨by decide, by decide,
   (output_tokens_distinct "/temp/abcd.png".toList "/data".toList zeroBytes oneBytes
    (by decide) (by decide) (by decide) (by decide) (by decide)).2.2.2.2.1⟩

end Gifspin
